import Mathlib

/-!
# HexDox: dependency-confusion scanner (`main.go`)

A shallow embedding of `main.go`.

* The network is an explicit input: every `httpClient.Get` receives its
  outcome as an argument (`FetchResult` for a manifest URL,
  `RegistryResponse` for a registry search).
* Standard output is a list of `Line`s, one per `fmt.Printf` call; the level
  of a line is the tag its format string starts with and `text` is the rest
  of the formatted message.
* Go maps are association lists (iteration order of a map is the order of the
  list, which is arbitrary).
* Goroutines, the two `sync.WaitGroup`s and the `semaphore` channel are a
  step relation on `Pool`. One step is one synchronisation action of one
  goroutine together with the prints that precede it in that goroutine:
  lines 64-90 of `processURL` are one step, the two launch loops belong to the
  step that decodes the manifest, and one dependency check with its
  `depWg.Done()` is one step. The order of lines in the output therefore
  covers fewer interleavings than the program has; all statements about the
  output are up to order.
* When `main` returns the process ends: no goroutine takes a step afterwards.
-/

namespace HexDox

/-! ## Output lines -/

/-- The tag a `fmt.Printf` format string starts with. -/
inductive Level where
  | info
  | warning
  | error
  deriving DecidableEq, Repr

/-- One `fmt.Printf` call: `[TAG] text\n`. -/
structure Line where
  level : Level
  text : String
  deriving DecidableEq, Repr

/-- The tag as printed. -/
def Level.tag : Level → String
  | .info => "[INFO]"
  | .warning => "[WARNING]"
  | .error => "[ERROR]"

/-- The bytes written to standard output by the call. -/
def Line.render (l : Line) : String :=
  l.level.tag ++ " " ++ l.text ++ "\n"

/-- Number of lines of a given level in an output. -/
def countLevel (lv : Level) (out : List Line) : Nat :=
  (out.filter (fun l => decide (l.level = lv))).length

/-! ## Registry client (`checkDependency`, main.go 35-59) -/

/-- Outcome of `httpClient.Get(apiURL)` followed by `io.ReadAll(resp.Body)`. -/
inductive RegistryResponse where
  /-- The call `httpClient.Get` returned `err != nil`. -/
  | getErr (err : String)
  /-- A response arrived, `io.ReadAll` returned `err != nil`. -/
  | readErr (status : Nat) (err : String)
  /-- A response arrived (any status code) and its body was read in full. -/
  | ok (status : Nat) (body : String)
  deriving DecidableEq, Repr

/-- `strings.Contains(s, substr)`: some position of `s` starts with `substr`. -/
def stringsContains : List Char → List Char → Bool
  | [], sub => sub.isPrefixOf []
  | c :: cs, sub => sub.isPrefixOf (c :: cs) || stringsContains cs sub

/-- The literal of main.go line 55. -/
def marker : String := "0 packages found"

/-- `checkDependency(dep, url, verbose)`: the returned bool and the lines it
prints, given the outcome of its one registry request. -/
def checkDependency (dep url : String) (verbose : Bool) (r : RegistryResponse) :
    Bool × List Line :=
  match r with
  | .getErr err =>
    (false,
      if verbose then
        [⟨.error, "Failed to fetch dependency '" ++ dep ++ "' from URL '" ++ url ++ "': " ++ err⟩]
      else [])
  | .readErr _ err =>
    (false,
      if verbose then
        [⟨.error, "Failed to read response for '" ++ dep ++ "' from URL '" ++ url ++ "': " ++ err⟩]
      else [])
  | .ok _ body =>
    if stringsContains body.data marker.data then (false, []) else (true, [])

/-- The closure `checkDep` of `processURL` (main.go 94-109): everything one
dependency check prints, the lines of `checkDependency` included. -/
def checkDep (url : String) (verbose : Bool) (dep : String) (dev : Bool)
    (r : RegistryResponse) : List Line :=
  let res := checkDependency dep url verbose r
  res.2 ++
    (if !res.1 then
      (if dev then
        [⟨.warning, "Potential Dependency Confusion: '" ++ dep ++
          "' not found on npm (devDependency, " ++ url ++ ")"⟩]
      else
        [⟨.warning, "Potential Dependency Confusion: '" ++ dep ++
          "' not found on npm (" ++ url ++ ")"⟩])
    else if verbose then
      (if dev then
        [⟨.info, "DevDependency '" ++ dep ++ "' exists on npm (" ++ url ++ ")"⟩]
      else
        [⟨.info, "Dependency '" ++ dep ++ "' exists on npm (" ++ url ++ ")"⟩])
    else [])

/-- The three-way classification of section 4.1 of the specification, written
from its words: transport error or body-read error is `LookupFailed`; a body
read in full is `NotFound` when it contains the marker and `Found` otherwise. -/
inductive Lookup where
  | Found
  | NotFound
  | LookupFailed
  deriving DecidableEq, Repr

/-- Classification of a registry response as the specification words it. -/
def specLookup : RegistryResponse → Lookup
  | .getErr _ => .LookupFailed
  | .readErr _ _ => .LookupFailed
  | .ok _ body => if marker.data <:+: body.data then .NotFound else .Found

/-! ## Manifest fetcher and dependency verifier (`processURL`, main.go 61-124) -/

/-- The struct `PackageJSON`; a Go `map[string]string` is the list of its
entries (keys pairwise distinct, order arbitrary). -/
structure PackageJSON where
  Dependencies : List (String × String)
  DevDependencies : List (String × String)
  deriving DecidableEq, Repr

/-- Outcome of `httpClient.Get(url)` and, for a response, of decoding its body
with `json.NewDecoder(resp.Body).Decode(&pkg)`. -/
inductive FetchResult where
  /-- The call `httpClient.Get` returned `err != nil`. -/
  | getErr (err : String)
  /-- A response with this status code; `decoded` is what `Decode` returns on
  its body (the error text, or the filled `pkg`). -/
  | response (status : Nat) (decoded : Except String PackageJSON)

/-- Lines 64-90 of `processURL`: what is printed up to and including the
decoding of the manifest, and the manifest when no early `return` is taken. -/
def fetchManifest (url : String) (verbose : Bool) (fr : FetchResult) :
    List Line × Option PackageJSON :=
  let l0 : List Line := if verbose then [⟨.info, "Fetching URL: " ++ url⟩] else []
  match fr with
  | .getErr err =>
    (l0 ++ (if verbose then [⟨.error, "Failed to fetch '" ++ url ++ "': " ++ err⟩] else []), none)
  | .response status decoded =>
    if status ≠ 200 then
      (l0 ++ (if verbose then
        [⟨.error, "Non-200 response for '" ++ url ++ "': " ++ toString status⟩] else []), none)
    else
      match decoded with
      | .error err =>
        (l0 ++ (if verbose then
          [⟨.error, "Failed to parse JSON from '" ++ url ++ "': " ++ err⟩] else []), none)
      | .ok pkg => (l0, some pkg)

/-- Lines 112-121 of `processURL`: the two `for ... range` loops. The state
threaded through the loops is the list of `go checkDep(dep, dev)` statements
executed so far and the counter of `depWg` (`depWg.Add(1)` per iteration). -/
def launch (pkg : PackageJSON) : List (String × Bool) × Nat :=
  let afterDeps :=
    pkg.Dependencies.foldl (fun st e => (st.1 ++ [(e.1, false)], st.2 + 1)) ([], 0)
  pkg.DevDependencies.foldl (fun st e => (st.1 ++ [(e.1, true)], st.2 + 1)) afterDeps

/-- The function `processURL` run on its own, the checks finishing in the order
they were launched: all lines it prints. `lookup dep dev` is the registry's
answer to the request of `checkDep(dep, dev)`. -/
def processURL (url : String) (verbose : Bool) (fr : FetchResult)
    (lookup : String → Bool → RegistryResponse) : List Line :=
  match fetchManifest url verbose fr with
  | (log, none) => log
  | (log, some pkg) =>
    log ++ ((launch pkg).1.map (fun c => checkDep url verbose c.1 c.2 (lookup c.1 c.2))).flatten

/-! ## The URL worker pool (`main`, main.go 143-156) -/

/-- The network as seen by one run: the outcome of the manifest request of the
`i`-th input line, and of the registry request made for that line by
`checkDep(dep, dev)`. -/
structure Env where
  fetch : Nat → FetchResult
  lookup : Nat → String → Bool → RegistryResponse

/-- Where the goroutine started by `go func(url string)` stands. -/
inductive Phase where
  /-- Started; `processURL` has not yet fetched and decoded the manifest. -/
  | start
  /-- Manifest decoded and all checks launched: `pending` are the checks still
  running, `finished` those that ran `depWg.Done()`, `depWg` the counter. -/
  | verifying (pending finished : List (String × Bool)) (depWg : Nat)
  /-- The body of `processURL` is over; its deferred `wg.Done()` has not run. -/
  | returned
  /-- `wg.Done()` has run; the deferred `<-semaphore` of the wrapper has not. -/
  | signalled
  /-- The slot has been given back; the goroutine is over. -/
  | released
  deriving DecidableEq, Repr

/-- One URL task: its position in the input, its URL and its phase. -/
structure Task where
  idx : Nat
  url : String
  phase : Phase
  deriving DecidableEq, Repr

/-- Where the main goroutine stands. -/
inductive MainPc where
  /-- At the head of `for _, url := range urls`. -/
  | loop
  /-- After `wg.Add(1)`, at `semaphore <- struct{}{}`. -/
  | added (url : String)
  /-- The send went through; at the `go` statement. -/
  | acquired (url : String)
  /-- In `wg.Wait()`. -/
  | waiting
  /-- The call `wg.Wait()` returned and `main` returned: the process is over. -/
  | exited
  deriving DecidableEq, Repr

/-- State of the pool. `cap` is the capacity of the channel `semaphore`, `sem`
the number of values buffered in it, `wg` the counter of the outer WaitGroup
(a negative counter is a Go panic). -/
structure Pool where
  cap : Nat
  todo : List String
  pc : MainPc
  wg : Int
  sem : Nat
  tasks : List Task
  out : List Line
  deriving DecidableEq, Repr

/-- State right after `semaphore := make(chan struct{}, k)`. -/
def Pool.init (k : Nat) (urls : List String) : Pool :=
  { cap := k, todo := urls, pc := .loop, wg := 0, sem := 0, tasks := [], out := [] }

/-- Lines 144-145 of `main` for the flag value `c`: `make(chan struct{}, c)`
panics (`makechan: size out of range`) when `c` is negative. -/
def newPool (c : Int) (urls : List String) : Option Pool :=
  if c < 0 then none else some (Pool.init c.toNat urls)

/-- One atomic step of some goroutine. Task steps are possible only while the
process is alive (`pc ≠ exited`). -/
inductive Step (E : Env) (verbose : Bool) : Pool → Pool → Prop where
  /-- Main: next loop iteration, `wg.Add(1)`. -/
  | add (s : Pool) (u : String) (rest : List String)
      (hpc : s.pc = .loop) (htodo : s.todo = u :: rest) :
      Step E verbose s { s with pc := .added u, todo := rest, wg := s.wg + 1 }
  /-- Main: `semaphore <- struct{}{}` into a buffer that is not full. -/
  | acquire (s : Pool) (u : String) (hpc : s.pc = .added u) (hfree : s.sem < s.cap) :
      Step E verbose s { s with pc := .acquired u, sem := s.sem + 1 }
  /-- Main and a task: on an unbuffered channel the send meets the receive of
  a task standing at its deferred `<-semaphore`. -/
  | rendezvous (s : Pool) (u : String) (l r : List Task) (i : Nat) (url : String)
      (hcap : s.cap = 0) (hpc : s.pc = .added u)
      (ht : s.tasks = l ++ ⟨i, url, .signalled⟩ :: r) :
      Step E verbose s { s with pc := .acquired u, tasks := l ++ ⟨i, url, .released⟩ :: r }
  /-- Main: `go func(url string) {...}(url)`. -/
  | spawn (s : Pool) (u : String) (hpc : s.pc = .acquired u) :
      Step E verbose s
        { s with pc := .loop, tasks := s.tasks ++ [⟨s.tasks.length, u, .start⟩] }
  /-- Main: the loop is over, `wg.Wait()` is called. -/
  | toWait (s : Pool) (hpc : s.pc = .loop) (htodo : s.todo = []) :
      Step E verbose s { s with pc := .waiting }
  /-- Main: the counter is zero, `wg.Wait()` returns and `main` returns. -/
  | exit (s : Pool) (hpc : s.pc = .waiting) (hwg : s.wg = 0) :
      Step E verbose s { s with pc := .exited }
  /-- Task: lines 64-90 end in an early `return`. -/
  | fetchFail (s : Pool) (l r : List Task) (i : Nat) (url : String) (log : List Line)
      (halive : s.pc ≠ .exited) (ht : s.tasks = l ++ ⟨i, url, .start⟩ :: r)
      (hf : fetchManifest url verbose (E.fetch i) = (log, none)) :
      Step E verbose s
        { s with tasks := l ++ ⟨i, url, .returned⟩ :: r, out := s.out ++ log }
  /-- Task: the manifest is decoded and lines 112-121 launch the checks. -/
  | fetchOk (s : Pool) (l r : List Task) (i : Nat) (url : String) (log : List Line)
      (pkg : PackageJSON)
      (halive : s.pc ≠ .exited) (ht : s.tasks = l ++ ⟨i, url, .start⟩ :: r)
      (hf : fetchManifest url verbose (E.fetch i) = (log, some pkg)) :
      Step E verbose s
        { s with
          tasks := l ++ ⟨i, url, .verifying (launch pkg).1 [] (launch pkg).2⟩ :: r,
          out := s.out ++ log }
  /-- Task: one of the running checks `checkDep(dep, dev)` runs to its end,
  `depWg.Done()` included. -/
  | check (s : Pool) (l r : List Task) (i : Nat) (url : String)
      (p q fin : List (String × Bool)) (dep : String) (dev : Bool) (n : Nat)
      (halive : s.pc ≠ .exited)
      (ht : s.tasks = l ++ ⟨i, url, .verifying (p ++ (dep, dev) :: q) fin n⟩ :: r) :
      Step E verbose s
        { s with
          tasks := l ++ ⟨i, url, .verifying (p ++ q) (fin ++ [(dep, dev)]) (n - 1)⟩ :: r,
          out := s.out ++ checkDep url verbose dep dev (E.lookup i dep dev) }
  /-- Task: the counter of `depWg` is zero, `depWg.Wait()` returns. -/
  | depWait (s : Pool) (l r : List Task) (i : Nat) (url : String)
      (p fin : List (String × Bool))
      (halive : s.pc ≠ .exited) (ht : s.tasks = l ++ ⟨i, url, .verifying p fin 0⟩ :: r) :
      Step E verbose s { s with tasks := l ++ ⟨i, url, .returned⟩ :: r }
  /-- Task: the deferred `wg.Done()` of `processURL`. -/
  | done (s : Pool) (l r : List Task) (i : Nat) (url : String)
      (halive : s.pc ≠ .exited) (ht : s.tasks = l ++ ⟨i, url, .returned⟩ :: r) :
      Step E verbose s
        { s with tasks := l ++ ⟨i, url, .signalled⟩ :: r, wg := s.wg - 1 }
  /-- Task: the deferred `<-semaphore` of the wrapper takes a buffered value. -/
  | release (s : Pool) (l r : List Task) (i : Nat) (url : String)
      (halive : s.pc ≠ .exited) (ht : s.tasks = l ++ ⟨i, url, .signalled⟩ :: r)
      (hsem : 0 < s.sem) :
      Step E verbose s
        { s with tasks := l ++ ⟨i, url, .released⟩ :: r, sem := s.sem - 1 }

/-- States the pool can be in after finitely many steps from `s`. -/
inductive Reach (E : Env) (verbose : Bool) (s : Pool) : Pool → Prop where
  | refl : Reach E verbose s s
  | step (t u : Pool) : Reach E verbose s t → Step E verbose t u → Reach E verbose s u

/-! ## Observations on pool states -/

/-- Slots held by a task: one from its start until its `<-semaphore`. -/
def Phase.holdsSlot : Phase → Nat
  | .released => 0
  | _ => 1

/-- One for a task that is still inside `processURL`, that is, in its
fetch/verify phase (its `wg.Done()` has not run). -/
def Phase.inProcessURL : Phase → Nat
  | .start => 1
  | .verifying _ _ _ => 1
  | .returned => 1
  | _ => 0

/-- Number of tasks holding a slot. -/
def holders (ts : List Task) : Nat := (ts.map (fun t => t.phase.holdsSlot)).sum

/-- Number of tasks started and still in their fetch/verify phase. -/
def inFlight (ts : List Task) : Nat := (ts.map (fun t => t.phase.inProcessURL)).sum

/-- The URL the main goroutine has taken from the input and not yet started. -/
def MainPc.urls : MainPc → List String
  | .added u => [u]
  | .acquired u => [u]
  | _ => []

/-- One when main ran `wg.Add(1)` for a task it has not started yet. -/
def MainPc.addedCount : MainPc → Nat
  | .added _ => 1
  | .acquired _ => 1
  | _ => 0

/-- One when main put a value into `semaphore` for a task not started yet. -/
def MainPc.slotCount : MainPc → Nat
  | .acquired _ => 1
  | _ => 0

/-- What a task has printed so far, up to order. -/
def emitted (E : Env) (verbose : Bool) (t : Task) : Multiset Line :=
  match t.phase with
  | .start => 0
  | .verifying _ fin _ =>
    (↑(fetchManifest t.url verbose (E.fetch t.idx)).1 : Multiset Line) +
      (fin.map (fun c =>
        (↑(checkDep t.url verbose c.1 c.2 (E.lookup t.idx c.1 c.2)) : Multiset Line))).sum
  | _ => ↑(processURL t.url verbose (E.fetch t.idx) (E.lookup t.idx))

/-- The URLs processed one after the other, each on its own, the first one
being input line `i`: all lines printed. -/
def sequentialRun (E : Env) (verbose : Bool) : Nat → List String → List Line
  | _, [] => []
  | i, u :: us =>
    processURL u verbose (E.fetch i) (E.lookup i) ++ sequentialRun E verbose (i + 1) us

/-- No goroutine can take a step although `main` has not returned: the Go
runtime reports `all goroutines are asleep - deadlock!`. -/
def Deadlocked (E : Env) (verbose : Bool) (s : Pool) : Prop :=
  s.pc ≠ .exited ∧ ∀ s2, ¬ Step E verbose s s2

/-- The counter of the outer WaitGroup went negative: `wg.Done()` panics. -/
def Panicked (s : Pool) : Prop := s.wg < 0

/-- The run for the flag value `c` neither panics nor deadlocks: the channel is
created and no reachable state is deadlocked or panicked. -/
def RunsSafely (E : Env) (verbose : Bool) (c : Int) (urls : List String) : Prop :=
  ∃ s0, newPool c urls = some s0 ∧
    ∀ s, Reach E verbose s0 s → ¬ Deadlocked E verbose s ∧ ¬ Panicked s

/-- Number of checks `processURL` launches for input line `i` (zero when the
fetch fails). -/
def checksOf (E : Env) (verbose : Bool) (i : Nat) (url : String) : Nat :=
  match (fetchManifest url verbose (E.fetch i)).2 with
  | some pkg => (launch pkg).1.length
  | none => 0

/-- Steps a task still has to take. -/
def taskFuel (E : Env) (verbose : Bool) (t : Task) : Nat :=
  match t.phase with
  | .start => checksOf E verbose t.idx t.url + 4
  | .verifying p _ _ => p.length + 3
  | .returned => 2
  | .signalled => 1
  | .released => 0

/-- Steps main still has to take, those of the task it is about to start
(input line `i`) included. -/
def mainFuel (E : Env) (verbose : Bool) (i : Nat) : MainPc → Nat
  | .loop => 2
  | .added u => checksOf E verbose i u + 8
  | .acquired u => checksOf E verbose i u + 7
  | .waiting => 1
  | .exited => 0

/-- Steps still to take for the input lines not yet read, the first of them
being line `i`. -/
def todoFuel (E : Env) (verbose : Bool) : Nat → List String → Nat
  | _, [] => 0
  | i, u :: us => checksOf E verbose i u + 7 + todoFuel E verbose (i + 1) us

/-- Upper bound on the number of steps left in a run. -/
def poolFuel (E : Env) (verbose : Bool) (s : Pool) : Nat :=
  todoFuel E verbose (s.tasks.length + s.pc.urls.length) s.todo +
    mainFuel E verbose s.tasks.length s.pc + (s.tasks.map (taskFuel E verbose)).sum

/-- The environment `E` with the manifest request of input line `x` answered
by `fr` instead. -/
def Env.setFetch (E : Env) (x : Nat) (fr : FetchResult) : Env :=
  { E with fetch := fun i => if i = x then fr else E.fetch i }

/-- A failed fetch, in the words of the claim: a transport error, a status
other than 200, or a body that does not decode. -/
def FetchResult.failed : FetchResult → Bool
  | .getErr _ => true
  | .response _ (.error _) => true
  | .response status (.ok _) => status != 200

/-- The entries of a manifest as dependency checks: each entry of
`dependencies` tagged runtime (`false`), each entry of `devDependencies`
tagged dev (`true`). -/
def entries (pkg : PackageJSON) : List (String × Bool) :=
  pkg.Dependencies.map (fun e => (e.1, false)) ++ pkg.DevDependencies.map (fun e => (e.1, true))

/-- A sample network: line 0 serves a manifest with two runtime and one dev
dependency, every other line answers 404; the registry knows every name but
`totally-fake-pkg-xyz`. -/
def sampleEnv : Env :=
  { fetch := fun i =>
      if i = 0 then
        .response 200 (.ok ⟨[("left-pad", "1.0.0"), ("totally-fake-pkg-xyz", "1.0.0")],
          [("left-pad", "1.0.0")]⟩)
      else .response 404 (.error ""),
    lookup := fun _ dep _ =>
      if dep = "totally-fake-pkg-xyz" then .ok 200 "0 packages found"
      else .ok 200 "1 packages found" }

/-- A sample network with two manifests: line 0 declares the runtime
dependency `left-pad`, every other line the dev dependency `internal-lib`,
which the registry does not know. -/
def twoEnv : Env :=
  { fetch := fun i =>
      if i = 0 then .response 200 (.ok ⟨[("left-pad", "1.0.0")], []⟩)
      else .response 200 (.ok ⟨[], [("internal-lib", "2.0.0")]⟩),
    lookup := fun _ dep _ =>
      if dep = "internal-lib" then .ok 200 "0 packages found"
      else .ok 200 "1 packages found" }

/-- A sample network on which every manifest URL answers 404. -/
def notFoundEnv : Env :=
  { fetch := fun _ => .response 404 (.error "unexpected end of JSON input"),
    lookup := fun _ _ _ => .ok 200 "1 packages found" }

/-- A sample network on which every request fails. -/
def downEnv : Env :=
  { fetch := fun _ => .getErr "timeout", lookup := fun _ _ _ => .getErr "timeout" }

/-- What a single step can do to one task: the six task steps, nothing else. -/
inductive TaskMove (E : Env) (verbose : Bool) (s s2 : Pool) (A B : Task) : Prop where
  | fetchFail (i : Nat) (url : String) (log : List Line)
      (hA : A = ⟨i, url, .start⟩) (hB : B = ⟨i, url, .returned⟩)
      (hf : fetchManifest url verbose (E.fetch i) = (log, none))
      (hout : s2.out = s.out ++ log)
  | fetchOk (i : Nat) (url : String) (log : List Line) (pkg : PackageJSON)
      (hA : A = ⟨i, url, .start⟩)
      (hB : B = ⟨i, url, .verifying (launch pkg).1 [] (launch pkg).2⟩)
      (hf : fetchManifest url verbose (E.fetch i) = (log, some pkg))
      (hout : s2.out = s.out ++ log)
  | check (i : Nat) (url : String) (p q fin : List (String × Bool)) (dep : String)
      (dev : Bool) (n : Nat)
      (hA : A = ⟨i, url, .verifying (p ++ (dep, dev) :: q) fin n⟩)
      (hB : B = ⟨i, url, .verifying (p ++ q) (fin ++ [(dep, dev)]) (n - 1)⟩)
      (hout : s2.out = s.out ++ checkDep url verbose dep dev (E.lookup i dep dev))
  | depWait (i : Nat) (url : String) (p fin : List (String × Bool))
      (hA : A = ⟨i, url, .verifying p fin 0⟩) (hB : B = ⟨i, url, .returned⟩)
      (hout : s2.out = s.out)
  | done (i : Nat) (url : String)
      (hA : A = ⟨i, url, .returned⟩) (hB : B = ⟨i, url, .signalled⟩)
      (hout : s2.out = s.out) (hwg : s2.wg = s.wg - 1)
  | release (i : Nat) (url : String)
      (hA : A = ⟨i, url, .signalled⟩) (hB : B = ⟨i, url, .released⟩)
      (hout : s2.out = s.out)

/-- Invariant of the pool started with capacity `k` on the input `urls`. -/
structure Inv (E : Env) (verbose : Bool) (k : Nat) (urls : List String) (s : Pool) : Prop where
  cap_eq : s.cap = k
  sem_eq : s.sem = holders s.tasks + s.pc.slotCount
  sem_le : s.sem ≤ s.cap
  wg_eq : s.wg = ((inFlight s.tasks + s.pc.addedCount : Nat) : Int)
  urls_eq : urls = s.tasks.map Task.url ++ s.pc.urls ++ s.todo
  idx_eq : s.tasks.map Task.idx = List.range s.tasks.length
  todo_nil : s.pc = .waiting ∨ s.pc = .exited → s.todo = []
  exited_wg : s.pc = .exited → s.wg = 0
  verify_ok : ∀ t ∈ s.tasks, ∀ p fin n, t.phase = .verifying p fin n →
    ∃ log pkg, fetchManifest t.url verbose (E.fetch t.idx) = (log, some pkg) ∧
      (p ++ fin).Perm (launch pkg).1 ∧ n = p.length
  out_eq : (↑s.out : Multiset Line) = (s.tasks.map (emitted E verbose)).sum

/-- The decimal numeral of `n`, as `%d` and `toString` print it. -/
def decimal (n : Nat) : List Char := Nat.toDigits 10 n

/-- The text that follows the result count on the search page. -/
def countSuffix : String := " packages found"

/-! ## Substring search -/

theorem stringsContains_spec (s sub : List Char) :
    stringsContains s sub = true ↔ sub <:+: s := by
  induction s with
  | nil => simp [stringsContains]
  | cons c cs ih =>
    simp only [stringsContains, Bool.or_eq_true, ih, List.infix_cons_iff]
    simp

theorem toDigitsCore_suffix (fuel n : Nat) (ds : List Char) :
    ∃ xs, Nat.toDigitsCore 10 fuel n ds = xs ++ ds := by
  induction fuel generalizing n ds with
  | zero => exact ⟨[], rfl⟩
  | succ f ih =>
    simp only [Nat.toDigitsCore]
    split
    · exact ⟨[Nat.digitChar (n % 10)], rfl⟩
    · obtain ⟨xs, hxs⟩ := ih (n / 10) (Nat.digitChar (n % 10) :: ds)
      exact ⟨xs ++ [Nat.digitChar (n % 10)], by simp [hxs]⟩

theorem decimal_last (n : Nat) : ∃ xs, decimal n = xs ++ [Nat.digitChar (n % 10)] := by
  unfold decimal Nat.toDigits
  simp only [Nat.toDigitsCore]
  split
  · exact ⟨[], rfl⟩
  · exact toDigitsCore_suffix n (n / 10) [Nat.digitChar (n % 10)]

theorem digitChar_eq_zero_iff (m : Nat) (hm : m < 10) : Nat.digitChar m = '0' ↔ m = 0 := by
  interval_cases m <;> decide

theorem marker_data : marker.data = '0' :: countSuffix.data := by decide

/-! ## Claims about the registry client and one dependency check -/

/-- C1. For every dependency name and every registry response,
`checkDependency` returns `true` exactly when the request completed, the body
was read in full and the body does not contain `0 packages found` (which is
exactly when the specification classifies the response `Found`); a body read
in full that contains the marker gives `false` and is classified `NotFound`. -/
theorem checkDependency_true_iff (dep url : String) (verbose : Bool) (r : RegistryResponse) :
    ((checkDependency dep url verbose r).1 = true ↔
        ∃ status body, r = .ok status body ∧ ¬ marker.data <:+: body.data) ∧
    ((checkDependency dep url verbose r).1 = true ↔ specLookup r = .Found) ∧
    (∀ status body, r = .ok status body → marker.data <:+: body.data →
        (checkDependency dep url verbose r).1 = false ∧ specLookup r = .NotFound) := by
  cases r with
  | getErr err => simp [checkDependency, specLookup]
  | readErr st err => simp [checkDependency, specLookup]
  | ok st body =>
    by_cases h : stringsContains body.data marker.data = true
    · have h2 := (stringsContains_spec _ _).1 h
      simp [checkDependency, specLookup, h, h2]
    · have h2 : ¬ marker.data <:+: body.data := fun hc => h ((stringsContains_spec _ _).2 hc)
      simp only [checkDependency, specLookup, h]
      refine ⟨?_, by simp [h2], fun st2 b2 hr hm => ?_⟩
      · simp only [Bool.false_eq_true, ↓reduceIte, true_iff]
        exact ⟨st, body, rfl, h2⟩
      · cases hr
        exact absurd hm h2

/-- C2, the code at a failing lookup. The registry request of `left-pad` fails
with a transport error and verbose is off: `checkDependency` returns `false`
and `checkDep` prints the warning `... 'left-pad' not found on npm (...)`;
with verbose on the error line is followed by the same warning. -/
theorem failed_lookup_is_reported_as_confusion :
    checkDep "https://example.com/package.json" false "left-pad" false (.getErr "timeout") =
      [⟨.warning, "Potential Dependency Confusion: 'left-pad' not found on npm (https://example.com/package.json)"⟩] ∧
    (checkDep "https://example.com/package.json" true "left-pad" false (.getErr "timeout")).map
      Line.level = [.error, .warning] := by
  constructor <;> decide

/-- C10 as stated fails: the body `10 packages found` (ten results) contains
`0 packages found`, so `checkDependency` returns `false` and the check prints
a warning. -/
theorem ten_packages_found_is_not_found :
    "10 packages found".data = decimal 10 ++ countSuffix.data ∧
    (checkDependency "left-pad" "u" false (.ok 200 "10 packages found")).1 = false ∧
    countLevel .warning
      (checkDep "u" false "left-pad" false (.ok 200 "10 packages found")) = 1 := by
  refine ⟨by decide, by decide, by decide⟩

/-- C10 amended. Let the body be `pre ++ numeral of n ++ " packages found" ++
post` and let that be the only place of the body where `" packages found"`
occurs. Then `checkDependency` returns `true` exactly when the numeral of `n`
does not end in the digit `0` (`n % 10 ≠ 0`), and in that case the check
prints no warning; when the numeral ends in `0` the check prints a warning. -/
theorem found_iff_count_not_ending_in_zero (dep url : String) (verbose dev : Bool)
    (status n : Nat) (body : String) (pre post : List Char)
    (hbody : body.data = pre ++ decimal n ++ countSuffix.data ++ post)
    (honly : ∀ a b, body.data = a ++ countSuffix.data ++ b → a = pre ++ decimal n) :
    ((checkDependency dep url verbose (.ok status body)).1 = true ↔ n % 10 ≠ 0) ∧
    (n % 10 ≠ 0 → countLevel .warning (checkDep url verbose dep dev (.ok status body)) = 0) ∧
    (n % 10 = 0 → countLevel .warning (checkDep url verbose dep dev (.ok status body)) = 1) := by
  obtain ⟨xs, hxs⟩ := decimal_last n
  have hlt : n % 10 < 10 := Nat.mod_lt _ (by decide)
  have key : marker.data <:+: body.data ↔ n % 10 = 0 := by
    constructor
    · rintro ⟨a, b, hab⟩
      have h1 : body.data = (a ++ ['0']) ++ countSuffix.data ++ b := by
        rw [← hab, marker_data]; simp
      have h2 := honly _ _ h1
      rw [hxs, ← List.append_assoc] at h2
      have h3 := (List.append_inj' h2 rfl).2
      simp only [List.cons.injEq, and_true] at h3
      exact (digitChar_eq_zero_iff _ hlt).1 h3.symm
    · intro h0
      have hd : Nat.digitChar (n % 10) = '0' := (digitChar_eq_zero_iff _ hlt).2 h0
      refine ⟨pre ++ xs, post, ?_⟩
      rw [hbody, hxs, hd, marker_data]; simp
  have hc : stringsContains body.data marker.data = true ↔ n % 10 = 0 :=
    (stringsContains_spec _ _).trans key
  by_cases h0 : n % 10 = 0
  · have := hc.2 h0
    cases dev <;> cases verbose <;> simp [checkDep, checkDependency, this, h0, countLevel]
  · have : ¬ stringsContains body.data marker.data = true := fun h => h0 (hc.1 h)
    cases dev <;> cases verbose <;> simp [checkDep, checkDependency, this, h0, countLevel]

/-- C10 amended, at the body `12 packages found`: the lookup is `Found`. -/
theorem found_iff_count_not_ending_in_zero_witness :
    (checkDependency "left-pad" "u" false (.ok 200 "12 packages found")).1 = true := by
  have honly : ∀ a b, "12 packages found".data = a ++ countSuffix.data ++ b →
      a = [] ++ decimal 12 := by
    intro a b h
    have hL : "12 packages found".data =
        ['1', '2', ' ', 'p', 'a', 'c', 'k', 'a', 'g', 'e', 's', ' ', 'f', 'o', 'u', 'n', 'd'] := by
      decide
    have hX : countSuffix.data =
        [' ', 'p', 'a', 'c', 'k', 'a', 'g', 'e', 's', ' ', 'f', 'o', 'u', 'n', 'd'] := by
      decide
    have hD : ([] : List Char) ++ decimal 12 = ['1', '2'] := by decide
    rw [hL, hX] at h
    rw [hD]
    have hlen := congrArg List.length h
    simp only [List.length_append, List.length_cons, List.length_nil] at hlen
    rcases a with _ | ⟨c1, _ | ⟨c2, _ | ⟨c3, a⟩⟩⟩
    · simp at h
    · simp at h
    · simp at h
      rw [h.1, h.2.1]
    · simp only [List.length_cons] at hlen
      omega
  exact (found_iff_count_not_ending_in_zero "left-pad" "u" false false 200 12
    "12 packages found" [] [] (by decide) honly).1.2 (by decide)

/-! ## Invariant of the pool -/

theorem inv_init (E : Env) (verbose : Bool) (k : Nat) (urls : List String) :
    Inv E verbose k urls (Pool.init k urls) := by
  constructor <;> simp [Pool.init, holders, inFlight, MainPc.slotCount, MainPc.addedCount,
    MainPc.urls]

theorem inv_step_counts (E : Env) (verbose : Bool) (k : Nat) (urls : List String) (s s2 : Pool)
    (h : Inv E verbose k urls s) (hs : Step E verbose s s2) :
    s2.cap = k ∧ s2.sem = holders s2.tasks + s2.pc.slotCount ∧ s2.sem ≤ s2.cap ∧
    s2.wg = ((inFlight s2.tasks + s2.pc.addedCount : Nat) : Int) := by
  have h1 := h.cap_eq
  have h2 := h.sem_eq
  have h3 := h.sem_le
  have h4 := h.wg_eq
  cases hs <;>
    simp_all [holders, inFlight, MainPc.slotCount, MainPc.addedCount, Phase.holdsSlot,
      Phase.inProcessURL] <;> omega

theorem inv_step_urls (E : Env) (verbose : Bool) (k : Nat) (urls : List String) (s s2 : Pool)
    (h : Inv E verbose k urls s) (hs : Step E verbose s s2) :
    urls = s2.tasks.map Task.url ++ s2.pc.urls ++ s2.todo ∧
    s2.tasks.map Task.idx = List.range s2.tasks.length ∧
    (s2.pc = .waiting ∨ s2.pc = .exited → s2.todo = []) ∧
    (s2.pc = .exited → s2.wg = 0) := by
  have h1 := h.urls_eq
  have h2 := h.idx_eq
  have h3 := h.todo_nil
  have h4 := h.exited_wg
  cases hs <;> simp_all [MainPc.urls, List.range_succ]

theorem launch_loop (b : Bool) (l : List (String × String)) (acc : List (String × Bool) × Nat) :
    l.foldl (fun st e => (st.1 ++ [(e.1, b)], st.2 + 1)) acc =
      (acc.1 ++ l.map (fun e => (e.1, b)), acc.2 + l.length) := by
  induction l generalizing acc with
  | nil => simp
  | cons e es ih => simp [ih, Nat.add_comm, Nat.add_left_comm]

theorem launch_eq (pkg : PackageJSON) :
    launch pkg =
      (pkg.Dependencies.map (fun e => (e.1, false)) ++
        pkg.DevDependencies.map (fun e => (e.1, true)),
       pkg.Dependencies.length + pkg.DevDependencies.length) := by
  simp [launch, launch_loop]

theorem launch_counter (pkg : PackageJSON) : (launch pkg).2 = (launch pkg).1.length := by
  simp [launch_eq]

theorem forall_mem_replace (P : Task → Prop) (l r : List Task) (t t2 : Task)
    (h : ∀ x ∈ l ++ t :: r, P x) (h2 : P t2) : ∀ x ∈ l ++ t2 :: r, P x := by
  intro x hx
  simp only [List.mem_append, List.mem_cons] at hx
  rcases hx with hx | hx | hx
  · exact h x (by simp [hx])
  · exact hx ▸ h2
  · exact h x (by simp [hx])

theorem inv_step_verify (E : Env) (verbose : Bool) (k : Nat) (urls : List String) (s s2 : Pool)
    (h : Inv E verbose k urls s) (hs : Step E verbose s s2) :
    ∀ t ∈ s2.tasks, ∀ p fin n, t.phase = .verifying p fin n →
      ∃ log pkg, fetchManifest t.url verbose (E.fetch t.idx) = (log, some pkg) ∧
        (p ++ fin).Perm (launch pkg).1 ∧ n = p.length := by
  have hv := h.verify_ok
  cases hs with
  | add u rest hpc htodo => exact hv
  | acquire u hpc hfree => exact hv
  | spawn u hpc =>
    intro t ht p fin n hp
    simp only [List.mem_append, List.mem_singleton] at ht
    rcases ht with ht | ht
    · exact hv t ht p fin n hp
    · subst ht; cases hp
  | toWait hpc htodo => exact hv
  | exit hpc hwg => exact hv
  | fetchOk l r i url log pkg halive ht hf =>
    rw [ht] at hv
    refine forall_mem_replace _ l r _ _ hv ?_
    intro p fin n hp
    cases hp
    exact ⟨log, pkg, hf, by simp, launch_counter pkg⟩
  | check l r i url p q fin dep dev n halive ht =>
    rw [ht] at hv
    refine forall_mem_replace _ l r _ _ hv ?_
    intro p2 fin2 n2 hp
    cases hp
    obtain ⟨log, pkg, h1, h2, h3⟩ :=
      hv ⟨i, url, .verifying (p ++ (dep, dev) :: q) fin n⟩ (by simp) _ _ _ rfl
    refine ⟨log, pkg, h1, List.Perm.trans ?_ h2, ?_⟩
    · simp only [List.append_assoc]
      refine List.Perm.append_left p ?_
      simp only [← List.append_assoc, ← List.cons_append]
      exact List.perm_append_singleton (dep, dev) (q ++ fin)
    · simp at h3 ⊢
      omega
  | rendezvous u l r i url hcap hpc ht =>
    rw [ht] at hv
    exact forall_mem_replace _ l r _ _ hv (by intro p fin n hp; cases hp)
  | fetchFail l r i url log halive ht hf =>
    rw [ht] at hv
    exact forall_mem_replace _ l r _ _ hv (by intro p fin n hp; cases hp)
  | depWait l r i url p fin halive ht =>
    rw [ht] at hv
    exact forall_mem_replace _ l r _ _ hv (by intro p fin n hp; cases hp)
  | done l r i url halive ht =>
    rw [ht] at hv
    exact forall_mem_replace _ l r _ _ hv (by intro p fin n hp; cases hp)
  | release l r i url halive ht hsem =>
    rw [ht] at hv
    exact forall_mem_replace _ l r _ _ hv (by intro p fin n hp; cases hp)

theorem processURL_of_none (url : String) (verbose : Bool) (fr : FetchResult)
    (lookup : String → Bool → RegistryResponse) (log : List Line)
    (hf : fetchManifest url verbose fr = (log, none)) :
    processURL url verbose fr lookup = log := by
  simp [processURL, hf]

theorem processURL_of_some (url : String) (verbose : Bool) (fr : FetchResult)
    (lookup : String → Bool → RegistryResponse) (log : List Line) (pkg : PackageJSON)
    (hf : fetchManifest url verbose fr = (log, some pkg)) :
    processURL url verbose fr lookup =
      log ++ ((launch pkg).1.map
        (fun c => checkDep url verbose c.1 c.2 (lookup c.1 c.2))).flatten := by
  simp [processURL, hf]

theorem coe_flatten_map {α : Type} (f : α → List Line) (l : List α) :
    ((↑((l.map f).flatten) : Multiset Line)) = (l.map (fun c => (↑(f c) : Multiset Line))).sum := by
  induction l with
  | nil => rfl
  | cons a as ih =>
    simp only [List.map_cons, List.flatten_cons, List.sum_cons, ← ih]
    rfl

theorem emitted_sum_replace (E : Env) (verbose : Bool) (l r : List Task) (t t2 : Task)
    (out : List Line) (extra : Multiset Line)
    (ho : (↑out : Multiset Line) = ((l ++ t :: r).map (emitted E verbose)).sum)
    (he : emitted E verbose t2 = emitted E verbose t + extra) :
    (↑out : Multiset Line) + extra = ((l ++ t2 :: r).map (emitted E verbose)).sum := by
  simp only [List.map_append, List.map_cons, List.sum_append, List.sum_cons] at ho ⊢
  rw [ho, he]
  abel

theorem inv_step_out (E : Env) (verbose : Bool) (k : Nat) (urls : List String) (s s2 : Pool)
    (h : Inv E verbose k urls s) (hs : Step E verbose s s2) :
    (↑s2.out : Multiset Line) = (s2.tasks.map (emitted E verbose)).sum := by
  have ho := h.out_eq
  have hv := h.verify_ok
  cases hs with
  | add u rest hpc htodo => exact ho
  | acquire u hpc hfree => exact ho
  | spawn u hpc => simpa [emitted] using ho
  | toWait hpc htodo => exact ho
  | exit hpc hwg => exact ho
  | fetchOk l r i url log pkg halive ht hf =>
    rw [ht] at ho
    rw [← Multiset.coe_add]
    exact emitted_sum_replace E verbose l r _ _ _ _ ho (by simp [emitted, hf])
  | fetchFail l r i url log halive ht hf =>
    rw [ht] at ho
    rw [← Multiset.coe_add]
    exact emitted_sum_replace E verbose l r _ _ _ _ ho
      (by simp [emitted, processURL_of_none _ _ _ _ _ hf])
  | check l r i url p q fin dep dev n halive ht =>
    rw [ht] at ho
    rw [← Multiset.coe_add]
    exact emitted_sum_replace E verbose l r _ _ _ _ ho (by simp [emitted, add_assoc])
  | rendezvous u l r i url hcap hpc ht =>
    rw [ht] at ho
    simpa using emitted_sum_replace E verbose l r _ ⟨i, url, .released⟩ _ 0 ho (by simp [emitted])
  | depWait l r i url p fin halive ht =>
    rw [ht] at ho
    obtain ⟨log, pkg, h1, h2, h3⟩ := hv ⟨i, url, .verifying p fin 0⟩ (by simp [ht]) _ _ _ rfl
    have hp : p = [] := List.length_eq_zero.1 h3.symm
    subst hp
    have he : emitted E verbose ⟨i, url, .returned⟩ =
        emitted E verbose ⟨i, url, .verifying [] fin 0⟩ + 0 := by
      simp only [emitted, add_zero, processURL_of_some _ _ _ _ _ _ h1, h1]
      rw [← Multiset.coe_add, coe_flatten_map]
      congr 1
      exact ((List.Perm.map _ h2).sum_eq).symm
    simpa using emitted_sum_replace E verbose l r _ ⟨i, url, .returned⟩ _ 0 ho he
  | done l r i url halive ht =>
    rw [ht] at ho
    simpa using emitted_sum_replace E verbose l r _ ⟨i, url, .signalled⟩ _ 0 ho (by simp [emitted])
  | release l r i url halive ht hsem =>
    rw [ht] at ho
    simpa using emitted_sum_replace E verbose l r _ ⟨i, url, .released⟩ _ 0 ho (by simp [emitted])

theorem inv_step (E : Env) (verbose : Bool) (k : Nat) (urls : List String) (s s2 : Pool)
    (h : Inv E verbose k urls s) (hs : Step E verbose s s2) : Inv E verbose k urls s2 := by
  obtain ⟨a1, a2, a3, a4⟩ := inv_step_counts E verbose k urls s s2 h hs
  obtain ⟨b1, b2, b3, b4⟩ := inv_step_urls E verbose k urls s s2 h hs
  exact ⟨a1, a2, a3, a4, b1, b2, b3, b4, inv_step_verify E verbose k urls s s2 h hs,
    inv_step_out E verbose k urls s s2 h hs⟩

theorem inv_reach (E : Env) (verbose : Bool) (k : Nat) (urls : List String) (s : Pool)
    (hr : Reach E verbose (Pool.init k urls) s) : Inv E verbose k urls s := by
  induction hr with
  | refl => exact inv_init E verbose k urls
  | step t u _ hs ih => exact inv_step E verbose k urls t u ih hs

theorem reach_trans (E : Env) (verbose : Bool) (a b c : Pool)
    (hab : Reach E verbose a b) (hbc : Reach E verbose b c) : Reach E verbose a c := by
  induction hbc with
  | refl => exact hab
  | step t u _ hs ih => exact Reach.step t u ih hs

theorem inFlight_le_holders (ts : List Task) : inFlight ts ≤ holders ts := by
  induction ts with
  | nil => simp [inFlight, holders]
  | cons t ts ih =>
    simp only [inFlight, holders, List.map_cons, List.sum_cons] at ih ⊢
    have ht : t.phase.inProcessURL ≤ t.phase.holdsSlot := by
      cases t.phase <;> simp [Phase.inProcessURL, Phase.holdsSlot]
    omega

theorem inFlight_eq_zero (ts : List Task) (h : inFlight ts = 0) :
    ∀ t ∈ ts, t.phase = .signalled ∨ t.phase = .released := by
  induction ts with
  | nil => simp
  | cons t ts ih =>
    simp only [inFlight, List.map_cons, List.sum_cons, Nat.add_eq_zero] at h
    intro x hx
    rcases List.mem_cons.1 hx with hx | hx
    · subst hx
      cases hp : x.phase <;> simp_all [Phase.inProcessURL]
    · exact ih h.2 x hx

/-! ## Claims about the pool -/

/-- C5. Bounded parallelism: for every capacity `k` (in particular every
positive concurrency) and every input list, in every reachable state the
number of URL tasks that have been started and are still in their
fetch/verify phase is at most `k`; so is the number of tasks holding a slot. -/
theorem bounded_parallelism (E : Env) (verbose : Bool) (k : Nat) (urls : List String)
    (s : Pool) (hr : Reach E verbose (Pool.init k urls) s) :
    inFlight s.tasks ≤ k ∧ holders s.tasks ≤ k := by
  have h := inv_reach E verbose k urls s hr
  have h1 := h.sem_eq
  have h2 := h.sem_le
  have h3 := h.cap_eq
  have h4 := inFlight_le_holders s.tasks
  omega

/-! ## Progress and termination -/

theorem step_fuel (E : Env) (verbose : Bool) (s s2 : Pool) (hs : Step E verbose s s2) :
    poolFuel E verbose s2 < poolFuel E verbose s := by
  cases hs with
  | add u rest hpc htodo => simp [poolFuel, hpc, htodo, MainPc.urls, mainFuel, todoFuel]; omega
  | acquire u hpc hfree => simp [poolFuel, hpc, MainPc.urls, mainFuel]
  | spawn u hpc => simp [poolFuel, hpc, MainPc.urls, mainFuel, taskFuel]; omega
  | toWait hpc htodo => simp [poolFuel, hpc, htodo, MainPc.urls, mainFuel, todoFuel]
  | exit hpc hwg => simp [poolFuel, hpc, MainPc.urls, mainFuel]
  | fetchOk l r i url log pkg halive ht hf =>
    simp [poolFuel, ht, taskFuel, checksOf, hf]
  | fetchFail l r i url log halive ht hf => simp [poolFuel, ht, taskFuel, checksOf, hf]
  | check l r i url p q fin dep dev n halive ht => simp [poolFuel, ht, taskFuel]
  | rendezvous u l r i url hcap hpc ht =>
    simp [poolFuel, ht, hpc, MainPc.urls, mainFuel, taskFuel]; omega
  | depWait l r i url p fin halive ht => simp [poolFuel, ht, taskFuel]
  | done l r i url halive ht => simp [poolFuel, ht, taskFuel]
  | release l r i url halive ht hsem => simp [poolFuel, ht, taskFuel]

theorem holders_pos_of_mem (ts : List Task) (t : Task) (ht : t ∈ ts)
    (hp : t.phase ≠ .released) : 0 < holders ts := by
  obtain ⟨l, r, rfl⟩ := List.append_of_mem ht
  have h1 : t.phase.holdsSlot = 1 := by
    cases h : t.phase <;> simp_all [Phase.holdsSlot]
  simp [holders, h1]

theorem counts_zero_of_all_released (ts : List Task) (h : ∀ t ∈ ts, t.phase = .released) :
    holders ts = 0 ∧ inFlight ts = 0 := by
  induction ts with
  | nil => simp [holders, inFlight]
  | cons t ts ih =>
    have h1 := h t (by simp)
    have h2 := ih (fun x hx => h x (by simp [hx]))
    simp only [holders, inFlight, List.map_cons, List.sum_cons] at h2 ⊢
    rw [h2.1, h2.2, h1]
    simp [Phase.holdsSlot, Phase.inProcessURL]

theorem progress (E : Env) (verbose : Bool) (k : Nat) (urls : List String) (s : Pool)
    (h : Inv E verbose k urls s) (hk : 0 < k ∨ urls = []) (hne : s.pc ≠ .exited) :
    ∃ s2, Step E verbose s s2 := by
  by_cases hall : ∀ t ∈ s.tasks, t.phase = .released
  · obtain ⟨hh, hf⟩ := counts_zero_of_all_released s.tasks hall
    have hsem := h.sem_eq
    have hwg := h.wg_eq
    have hcap := h.cap_eq
    cases hpc : s.pc with
    | loop =>
      cases htodo : s.todo with
      | nil => exact ⟨_, Step.toWait s hpc htodo⟩
      | cons u rest => exact ⟨_, Step.add s u rest hpc htodo⟩
    | added u =>
      have hk2 : 0 < k := by
        rcases hk with hk | hk
        · exact hk
        · have := h.urls_eq
          rw [hk, hpc] at this
          simp [MainPc.urls] at this
      refine ⟨_, Step.acquire s u hpc ?_⟩
      rw [hpc] at hsem
      simp only [MainPc.slotCount] at hsem
      omega
    | acquired u => exact ⟨_, Step.spawn s u hpc⟩
    | waiting =>
      refine ⟨_, Step.exit s hpc ?_⟩
      rw [hwg, hf, hpc]
      simp [MainPc.addedCount]
    | exited => exact absurd hpc hne
  · push_neg at hall
    obtain ⟨t, hmem, hph⟩ := hall
    obtain ⟨l, r, hlr⟩ := List.append_of_mem hmem
    obtain ⟨i, url, ph⟩ := t
    cases ph with
    | start =>
      rcases hfm : fetchManifest url verbose (E.fetch i) with ⟨log, _ | pkg⟩
      · exact ⟨_, Step.fetchFail s l r i url log hne hlr hfm⟩
      · exact ⟨_, Step.fetchOk s l r i url log pkg hne hlr hfm⟩
    | verifying p fin n =>
      obtain ⟨log, pkg, _, _, hn⟩ := h.verify_ok _ hmem p fin n rfl
      cases p with
      | nil =>
        simp only [List.length_nil] at hn
        subst hn
        exact ⟨_, Step.depWait s l r i url [] fin hne hlr⟩
      | cons c q => exact ⟨_, Step.check s l r i url [] q fin c.1 c.2 n hne hlr⟩
    | returned => exact ⟨_, Step.done s l r i url hne hlr⟩
    | signalled =>
      refine ⟨_, Step.release s l r i url hne hlr ?_⟩
      have := holders_pos_of_mem s.tasks _ hmem hph
      have := h.sem_eq
      omega
    | released => exact absurd rfl hph

theorem eventually_exits (E : Env) (verbose : Bool) (k : Nat) (urls : List String)
    (hk : 0 < k ∨ urls = []) (n : Nat) :
    ∀ s, poolFuel E verbose s ≤ n → Inv E verbose k urls s →
      ∃ s2, Reach E verbose s s2 ∧ s2.pc = .exited := by
  induction n with
  | zero =>
    intro s hn h
    by_cases hpc : s.pc = .exited
    · exact ⟨s, Reach.refl, hpc⟩
    · obtain ⟨s2, hs⟩ := progress E verbose k urls s h hk hpc
      have := step_fuel E verbose s s2 hs
      omega
  | succ n ih =>
    intro s hn h
    by_cases hpc : s.pc = .exited
    · exact ⟨s, Reach.refl, hpc⟩
    · obtain ⟨s2, hs⟩ := progress E verbose k urls s h hk hpc
      have hlt := step_fuel E verbose s s2 hs
      obtain ⟨s3, hr, hex⟩ := ih s2 (by omega) (inv_step E verbose k urls s s2 h hs)
      exact ⟨s3, reach_trans E verbose s s2 s3 (Reach.step s s2 Reach.refl hs) hr, hex⟩

theorem zero_capacity_deadlock (E : Env) (verbose : Bool) (u : String) (rest : List String) :
    ∃ s, Reach E verbose (Pool.init 0 (u :: rest)) s ∧ Deadlocked E verbose s := by
  refine ⟨{ Pool.init 0 (u :: rest) with pc := .added u, todo := rest, wg := 0 + 1 },
    Reach.step _ _ Reach.refl (Step.add _ u rest rfl rfl), ?_, ?_⟩
  · simp
  · intro s2 hs
    cases hs <;> simp_all [Pool.init]

theorem not_runsSafely_zero (E : Env) (verbose : Bool) (u : String) (rest : List String) :
    ¬ RunsSafely E verbose 0 (u :: rest) := by
  rintro ⟨s0, h0, hsafe⟩
  simp only [newPool, lt_self_iff_false, ↓reduceIte, Int.toNat_zero, Option.some.injEq] at h0
  subst h0
  obtain ⟨s, hr, hd⟩ := zero_capacity_deadlock E verbose u rest
  exact (hsafe s hr).1 hd

theorem not_runsSafely_neg (E : Env) (verbose : Bool) (c : Int) (hc : c < 0)
    (urls : List String) : ¬ RunsSafely E verbose c urls := by
  rintro ⟨s0, h0, _⟩
  simp [newPool, hc] at h0

theorem runsSafely_of_ok (E : Env) (verbose : Bool) (c : Int) (urls : List String)
    (hc : 0 < c ∨ (c = 0 ∧ urls = [])) : RunsSafely E verbose c urls := by
  have hc0 : ¬ c < 0 := by omega
  have hk : 0 < c.toNat ∨ urls = [] := by
    rcases hc with hc | hc
    · exact Or.inl (by omega)
    · exact Or.inr hc.2
  refine ⟨Pool.init c.toNat urls, by simp [newPool, hc0], fun s hr => ?_⟩
  have h := inv_reach E verbose c.toNat urls s hr
  refine ⟨fun hd => ?_, fun hp => ?_⟩
  · obtain ⟨s2, hs⟩ := progress E verbose c.toNat urls s h hk hd.1
    exact hd.2 s2 hs
  · have := h.wg_eq
    unfold Panicked at hp
    omega

theorem completes_of_ok (E : Env) (verbose : Bool) (k : Nat) (urls : List String)
    (hk : 0 < k ∨ urls = []) (s : Pool) (hr : Reach E verbose (Pool.init k urls) s) :
    ∃ s2, Reach E verbose s s2 ∧ s2.pc = .exited :=
  eventually_exits E verbose k urls hk (poolFuel E verbose s) s (Nat.le_refl _)
    (inv_reach E verbose k urls s hr)

/-- C6 as stated fails. With `-c 0` and one input line the main goroutine
blocks for ever in its first `semaphore <- struct{}{}` (a reachable state
without any possible step); with `-c -1` the call `make(chan struct{}, -1)`
panics, also on an empty input. -/
theorem nonpositive_concurrency_deadlocks_or_panics :
    (∃ s, Reach downEnv false (Pool.init 0 ["https://example.com/package.json"]) s ∧
      Deadlocked downEnv false s) ∧
    ¬ RunsSafely downEnv false 0 ["https://example.com/package.json"] ∧
    newPool (-1) [] = none ∧
    ¬ RunsSafely downEnv false (-1) [] :=
  ⟨zero_capacity_deadlock downEnv false _ [], not_runsSafely_zero downEnv false _ [],
    by decide, not_runsSafely_neg downEnv false (-1) (by decide) []⟩

/-- C6 amended. The flag value is used as the channel capacity unchanged,
neither rejected nor raised to 1. The run is free of panics and deadlocks
exactly when the concurrency is positive, or is zero and the input is empty;
in those cases every reachable state can run on to the end of `main`, and
every step brings the run closer to it (`poolFuel` decreases). -/
theorem runs_safely_iff (E : Env) (verbose : Bool) (c : Int) (urls : List String) :
    (RunsSafely E verbose c urls ↔ 0 < c ∨ (c = 0 ∧ urls = [])) ∧
    (0 < c ∨ (c = 0 ∧ urls = []) →
      newPool c urls = some (Pool.init c.toNat urls) ∧
      ∀ s, Reach E verbose (Pool.init c.toNat urls) s →
        (∃ s2, Reach E verbose s s2 ∧ s2.pc = .exited) ∧
        ∀ s2, Step E verbose s s2 → poolFuel E verbose s2 < poolFuel E verbose s) := by
  refine ⟨⟨fun h => ?_, runsSafely_of_ok E verbose c urls⟩, fun hc => ⟨?_, fun s hr => ⟨?_, ?_⟩⟩⟩
  · by_contra hn
    rcases lt_trichotomy c 0 with hlt | heq | hgt
    · exact not_runsSafely_neg E verbose c hlt urls h
    · subst heq
      cases urls with
      | nil => exact hn (Or.inr ⟨rfl, rfl⟩)
      | cons u rest => exact not_runsSafely_zero E verbose u rest h
    · exact hn (Or.inl hgt)
  · have hc0 : ¬ c < 0 := by omega
    simp [newPool, hc0]
  · refine completes_of_ok E verbose c.toNat urls ?_ s hr
    rcases hc with hc | hc
    · exact Or.inl (by omega)
    · exact Or.inr hc.2
  · exact fun s2 hs => step_fuel E verbose s s2 hs

/-- C6 amended, at `-c 5` (the default) and one input line. -/
theorem runs_safely_iff_witness :
    RunsSafely downEnv false 5 ["https://example.com/package.json"] :=
  (runs_safely_iff downEnv false 5 ["https://example.com/package.json"]).1.2
    (Or.inl (by decide))

/-! ## Sample runs -/

/-- One URL, capacity 1: main has started the task. -/
theorem started_run (E : Env) (verbose : Bool) (u : String) :
    Reach E verbose (Pool.init 1 [u])
      { cap := 1, todo := [], pc := .loop, wg := 1, sem := 1,
        tasks := [⟨0, u, .start⟩], out := [] } :=
  Reach.step _ _ (Reach.step _ _ (Reach.step _ _ Reach.refl
    (Step.add _ u [] rfl rfl)) (Step.acquire _ u rfl Nat.zero_lt_one)) (Step.spawn _ u rfl)

/-- One URL, capacity 1, every request fails: the run in which `main` leaves
`wg.Wait()` right after the task ran `wg.Done()`. -/
theorem down_run (u : String) :
    Reach downEnv false (Pool.init 1 [u])
      { cap := 1, todo := [], pc := .exited, wg := 0, sem := 1,
        tasks := [⟨0, u, .signalled⟩], out := [] } := by
  have h1 : Reach downEnv false (Pool.init 1 [u])
      { cap := 1, todo := [], pc := .loop, wg := 1, sem := 1,
        tasks := [⟨0, u, .start⟩], out := [] } :=
    Reach.step _ _ (Reach.step _ _ (Reach.step _ _ Reach.refl
      (Step.add _ u [] rfl rfl)) (Step.acquire _ u rfl Nat.zero_lt_one)) (Step.spawn _ u rfl)
  have h2 : Reach downEnv false (Pool.init 1 [u])
      { cap := 1, todo := [], pc := .waiting, wg := 1, sem := 1,
        tasks := [⟨0, u, .returned⟩], out := [] } :=
    Reach.step _ _ (Reach.step _ _ h1 (Step.toWait _ rfl rfl))
      (Step.fetchFail _ [] [] 0 u [] (by simp) rfl rfl)
  exact Reach.step _ _ (Reach.step _ _ h2 (Step.done _ [] [] 0 u (by simp) rfl))
    (Step.exit _ rfl rfl)

/-- One URL, capacity 1, on `sampleEnv`: the task has launched its three checks
and the check of `totally-fake-pkg-xyz` has finished. -/
theorem sample_run (u : String) :
    Reach sampleEnv false (Pool.init 1 [u])
      { cap := 1, todo := [], pc := .loop, wg := 1, sem := 1,
        tasks := [⟨0, u, .verifying [("left-pad", false), ("left-pad", true)]
          [("totally-fake-pkg-xyz", false)] 2⟩],
        out := checkDep u false "totally-fake-pkg-xyz" false (.ok 200 "0 packages found") } := by
  have h1 : Reach sampleEnv false (Pool.init 1 [u])
      { cap := 1, todo := [], pc := .loop, wg := 1, sem := 1,
        tasks := [⟨0, u, .start⟩], out := [] } :=
    Reach.step _ _ (Reach.step _ _ (Reach.step _ _ Reach.refl
      (Step.add _ u [] rfl rfl)) (Step.acquire _ u rfl Nat.zero_lt_one)) (Step.spawn _ u rfl)
  have h2 := Reach.step _ _ h1
    (Step.fetchOk _ [] [] 0 u [] ⟨[("left-pad", "1.0.0"), ("totally-fake-pkg-xyz", "1.0.0")],
      [("left-pad", "1.0.0")]⟩ (by simp) rfl rfl)
  exact Reach.step _ _ h2
    (Step.check _ [] [] 0 u [("left-pad", false)] [("left-pad", true)] []
      "totally-fake-pkg-xyz" false 3 (by simp) rfl)

/-- C5 on the sample run: one task in flight, capacity 1. -/
theorem bounded_parallelism_witness :
    inFlight [(⟨0, "https://example.com/package.json",
        .verifying [("left-pad", false), ("left-pad", true)]
          [("totally-fake-pkg-xyz", false)] 2⟩ : Task)] ≤ 1 :=
  (bounded_parallelism sampleEnv false 1 ["https://example.com/package.json"] _
    (sample_run "https://example.com/package.json")).1

/-- C7 as stated fails. Capacity 1, one URL whose fetch fails: after the
task's deferred `wg.Done()` the counter is zero, `wg.Wait()` returns and `main`
ends, while the task has not yet run its deferred `<-semaphore` and still holds
the slot. -/
theorem barrier_passed_while_slot_held :
    ∃ s, Reach downEnv false (Pool.init 1 ["https://example.com/package.json"]) s ∧
      s.pc = .exited ∧ s.tasks = [⟨0, "https://example.com/package.json", .signalled⟩] ∧
      holders s.tasks = 1 ∧ s.sem = 1 :=
  ⟨_, down_run "https://example.com/package.json", rfl, rfl, by decide, rfl⟩

/-- C7 amended. In every reachable state in which the completion barrier has
been passed, every input URL has been started and no task is still in its
fetch/verify phase: each task has delivered `wg.Done()`. The slot release
comes after the completion signal: a step that delivers `wg.Done()` leaves
the slots as they are, so a task may still hold its slot when the barrier is
passed. -/
theorem barrier_after_every_done (E : Env) (verbose : Bool) (k : Nat) (urls : List String)
    (s : Pool) (hr : Reach E verbose (Pool.init k urls) s) :
    (s.pc = .exited →
      s.tasks.map Task.url = urls ∧ inFlight s.tasks = 0 ∧
      ∀ t ∈ s.tasks, t.phase = .signalled ∨ t.phase = .released) ∧
    (∀ s2, Step E verbose s s2 → s2.wg < s.wg →
      holders s2.tasks = holders s.tasks ∧ s2.sem = s.sem) := by
  have h := inv_reach E verbose k urls s hr
  constructor
  · intro hex
    have h1 := h.urls_eq
    have h2 := h.todo_nil (Or.inr hex)
    have h3 := h.exited_wg hex
    have h4 := h.wg_eq
    have h5 : inFlight s.tasks = 0 := by omega
    rw [h2, hex] at h1
    simp only [MainPc.urls, List.append_nil] at h1
    exact ⟨h1.symm, h5, inFlight_eq_zero s.tasks h5⟩
  · intro s2 hs hlt
    cases hs <;> simp_all [holders, Phase.holdsSlot]

/-- C7 amended, on the run of `down_run`. -/
theorem barrier_after_every_done_witness :
    inFlight [(⟨0, "https://example.com/package.json", .signalled⟩ : Task)] = 0 :=
  ((barrier_after_every_done downEnv false 1 ["https://example.com/package.json"] _
    (down_run "https://example.com/package.json")).1 rfl).2.1

theorem launch_nodup (pkg : PackageJSON) (h1 : (pkg.Dependencies.map Prod.fst).Nodup)
    (h2 : (pkg.DevDependencies.map Prod.fst).Nodup) : (launch pkg).1.Nodup := by
  rw [launch_eq]
  refine List.Nodup.append ?_ ?_ ?_
  · have := List.Nodup.map (f := fun n : String => (n, false))
      (fun a b hab => by simpa using hab) h1
    simpa [List.map_map, Function.comp_def] using this
  · have := List.Nodup.map (f := fun n : String => (n, true))
      (fun a b hab => by simpa using hab) h2
    simpa [List.map_map, Function.comp_def] using this
  · intro x hx hy
    simp only [List.mem_map] at hx hy
    obtain ⟨a, _, rfl⟩ := hx
    obtain ⟨b, _, hb⟩ := hy
    simp at hb

/-! ## Which steps change a task -/

theorem task_change (l : List Task) :
    ∀ (l2 r r2 : List Task) (A B t t2 : Task),
      l ++ A :: r = l2 ++ t :: r2 → l ++ B :: r = l2 ++ t2 :: r2 → A ≠ B → A = t ∧ B = t2 := by
  induction l with
  | nil =>
    intro l2 r r2 A B t t2 h1 h2 hne
    cases l2 with
    | nil =>
      simp only [List.nil_append, List.cons.injEq] at h1 h2
      exact ⟨h1.1, h2.1⟩
    | cons x xs =>
      simp only [List.nil_append, List.cons_append, List.cons.injEq] at h1 h2
      exact absurd (h1.1.trans h2.1.symm) hne
  | cons a as ih =>
    intro l2 r r2 A B t t2 h1 h2 hne
    cases l2 with
    | nil =>
      simp only [List.nil_append, List.cons_append, List.cons.injEq] at h1 h2
      have h3 := h1.2.trans h2.2.symm
      have h4 := List.append_cancel_left h3
      simp only [List.cons.injEq, and_true] at h4
      exact absurd h4 hne
    | cons x xs =>
      simp only [List.cons_append, List.cons.injEq] at h1 h2
      exact ih xs r r2 A B t t2 h1.2 h2.2 hne

theorem no_task_change (l r : List Task) (A B : Task) (h : l ++ A :: r = l ++ B :: r) :
    A = B := by
  have h2 := List.append_cancel_left h
  simp only [List.cons.injEq, and_true] at h2
  exact h2

theorem step_task_move (E : Env) (verbose : Bool) (s s2 : Pool) (hs : Step E verbose s s2)
    (l r : List Task) (A B : Task) (h1 : s.tasks = l ++ A :: r) (h2 : s2.tasks = l ++ B :: r)
    (hne : A ≠ B) : TaskMove E verbose s s2 A B := by
  cases hs with
  | add u rest hpc htodo => exact absurd (no_task_change l r A B (h1.symm.trans h2)) hne
  | acquire u hpc hfree => exact absurd (no_task_change l r A B (h1.symm.trans h2)) hne
  | toWait hpc htodo => exact absurd (no_task_change l r A B (h1.symm.trans h2)) hne
  | exit hpc hwg => exact absurd (no_task_change l r A B (h1.symm.trans h2)) hne
  | spawn u hpc =>
    have h3 := congrArg List.length h2
    simp [h1] at h3
  | rendezvous u l2 r2 i url hcap hpc ht =>
    obtain ⟨hA, hB⟩ := task_change l l2 r r2 A B _ _ (h1.symm.trans ht) h2.symm hne
    exact TaskMove.release i url hA hB rfl
  | fetchFail l2 r2 i url log halive ht hf =>
    obtain ⟨hA, hB⟩ := task_change l l2 r r2 A B _ _ (h1.symm.trans ht) h2.symm hne
    exact TaskMove.fetchFail i url log hA hB hf rfl
  | fetchOk l2 r2 i url log pkg halive ht hf =>
    obtain ⟨hA, hB⟩ := task_change l l2 r r2 A B _ _ (h1.symm.trans ht) h2.symm hne
    exact TaskMove.fetchOk i url log pkg hA hB hf rfl
  | check l2 r2 i url p q fin dep dev n halive ht =>
    obtain ⟨hA, hB⟩ := task_change l l2 r r2 A B _ _ (h1.symm.trans ht) h2.symm hne
    exact TaskMove.check i url p q fin dep dev n hA hB rfl
  | depWait l2 r2 i url p fin halive ht =>
    obtain ⟨hA, hB⟩ := task_change l l2 r r2 A B _ _ (h1.symm.trans ht) h2.symm hne
    exact TaskMove.depWait i url p fin hA hB rfl
  | done l2 r2 i url halive ht =>
    obtain ⟨hA, hB⟩ := task_change l l2 r r2 A B _ _ (h1.symm.trans ht) h2.symm hne
    exact TaskMove.done i url hA hB rfl rfl
  | release l2 r2 i url halive ht hsem =>
    obtain ⟨hA, hB⟩ := task_change l l2 r r2 A B _ _ (h1.symm.trans ht) h2.symm hne
    exact TaskMove.release i url hA hB rfl

/-- One URL, capacity 1, on `sampleEnv`: all three checks of the task have
finished and the task stands at `depWg.Wait()`. -/
theorem sample_run_checked (u : String) :
    Reach sampleEnv false (Pool.init 1 [u])
      { cap := 1, todo := [], pc := .loop, wg := 1, sem := 1,
        tasks := [⟨0, u, .verifying []
          [("totally-fake-pkg-xyz", false), ("left-pad", false), ("left-pad", true)] 0⟩],
        out := checkDep u false "totally-fake-pkg-xyz" false (.ok 200 "0 packages found") ++
          checkDep u false "left-pad" false (sampleEnv.lookup 0 "left-pad" false) ++
          checkDep u false "left-pad" true (sampleEnv.lookup 0 "left-pad" true) } :=
  Reach.step _ _ (Reach.step _ _ (sample_run u)
    (Step.check _ [] [] 0 u [] [("left-pad", true)] [("totally-fake-pkg-xyz", false)]
      "left-pad" false 2 (by simp) rfl))
    (Step.check _ [] [] 0 u [] [] [("totally-fake-pkg-xyz", false), ("left-pad", false)]
      "left-pad" true 1 (by simp) rfl)

/-- C4. Exactly one check per manifest entry, for every capacity and input,
in every reachable state `s`.
(1) The two loops of `processURL` launch the checks `entries pkg`, that is
`N = |dependencies| + |devDependencies|` of them, and leave the counter of
`depWg` at `N`; with distinct keys in each map no check is launched twice.
(2) A task that is verifying has a decoded manifest, its running and finished
checks together are a permutation of the manifest's entries, and the counter
of `depWg` is the number of running checks.
(3) A step that takes a task from its start into verifying launches exactly
the entries of its decoded manifest, none finished yet, counter `N`.
(4) A step that lets a verifying task leave `depWg.Wait()` happens only with
no check running and counter 0, all `N` entries finished.
(5) Any other step that changes a verifying task runs one running check to
its end: it moves to the finished ones, the counter goes down by one and the
lines of that check are printed.
(6) A task goes from its start to the end of `processURL` without verifying
only when no manifest was decoded. -/
theorem one_check_per_entry (E : Env) (verbose : Bool) (k : Nat) (urls : List String)
    (s : Pool) (hr : Reach E verbose (Pool.init k urls) s) :
    (∀ pkg : PackageJSON,
      (launch pkg).1 = entries pkg ∧
      (launch pkg).1.length = pkg.Dependencies.length + pkg.DevDependencies.length ∧
      (launch pkg).2 = pkg.Dependencies.length + pkg.DevDependencies.length ∧
      ((pkg.Dependencies.map Prod.fst).Nodup → (pkg.DevDependencies.map Prod.fst).Nodup →
        (launch pkg).1.Nodup)) ∧
    (∀ t ∈ s.tasks, ∀ p fin n, t.phase = .verifying p fin n →
      ∃ log pkg, fetchManifest t.url verbose (E.fetch t.idx) = (log, some pkg) ∧
        (p ++ fin).Perm (entries pkg) ∧
        (p ++ fin).length = pkg.Dependencies.length + pkg.DevDependencies.length ∧
        n = p.length ∧
        (n = 0 → fin.Perm (entries pkg))) ∧
    (∀ s2, Step E verbose s s2 → ∀ l r i url p fin n,
      s.tasks = l ++ ⟨i, url, .start⟩ :: r →
      s2.tasks = l ++ ⟨i, url, .verifying p fin n⟩ :: r →
      ∃ log pkg, fetchManifest url verbose (E.fetch i) = (log, some pkg) ∧
        p = entries pkg ∧ fin = [] ∧
        n = pkg.Dependencies.length + pkg.DevDependencies.length) ∧
    (∀ s2, Step E verbose s s2 → ∀ l r i url p fin n,
      s.tasks = l ++ ⟨i, url, .verifying p fin n⟩ :: r →
      s2.tasks = l ++ ⟨i, url, .returned⟩ :: r →
      ∃ log pkg, fetchManifest url verbose (E.fetch i) = (log, some pkg) ∧
        p = [] ∧ n = 0 ∧ fin.Perm (entries pkg) ∧
        fin.length = pkg.Dependencies.length + pkg.DevDependencies.length) ∧
    (∀ s2, Step E verbose s s2 → ∀ l r i url p fin n p2 fin2 n2,
      s.tasks = l ++ ⟨i, url, .verifying p fin n⟩ :: r →
      s2.tasks = l ++ ⟨i, url, .verifying p2 fin2 n2⟩ :: r →
      Phase.verifying p fin n ≠ Phase.verifying p2 fin2 n2 →
      ∃ a b dep dev, p = a ++ (dep, dev) :: b ∧ p2 = a ++ b ∧ fin2 = fin ++ [(dep, dev)] ∧
        n2 + 1 = n ∧
        s2.out = s.out ++ checkDep url verbose dep dev (E.lookup i dep dev)) ∧
    (∀ s2, Step E verbose s s2 → ∀ l r i url,
      s.tasks = l ++ ⟨i, url, .start⟩ :: r →
      s2.tasks = l ++ ⟨i, url, .returned⟩ :: r →
      (fetchManifest url verbose (E.fetch i)).2 = none) := by
  have hinv := inv_reach E verbose k urls s hr
  have key : ∀ t ∈ s.tasks, ∀ p fin n, t.phase = .verifying p fin n →
      ∃ log pkg, fetchManifest t.url verbose (E.fetch t.idx) = (log, some pkg) ∧
        (p ++ fin).Perm (entries pkg) ∧
        (p ++ fin).length = pkg.Dependencies.length + pkg.DevDependencies.length ∧
        n = p.length ∧
        (n = 0 → fin.Perm (entries pkg)) := by
    intro t ht p fin n hp
    obtain ⟨log, pkg, h1, h2, h3⟩ := hinv.verify_ok t ht p fin n hp
    have he : (launch pkg).1 = entries pkg := by simp [launch_eq, entries]
    rw [he] at h2
    refine ⟨log, pkg, h1, h2, ?_, h3, fun h0 => ?_⟩
    · rw [h2.length_eq]
      simp [entries]
    · have hp0 : p = [] := List.length_eq_zero.1 (by omega)
      simpa [hp0] using h2
  refine ⟨fun pkg => ⟨by simp [launch_eq, entries], by simp [launch_eq], by simp [launch_eq],
    launch_nodup pkg⟩, key, ?_, ?_, ?_, ?_⟩
  · intro s2 hs l r i url p fin n h1 h2
    have hm := step_task_move E verbose s s2 hs l r _ _ h1 h2 (by simp)
    cases hm with
    | fetchFail i2 url2 log hA hB hf hout => cases hA; cases hB
    | fetchOk i2 url2 log pkg hA hB hf hout =>
      cases hA
      cases hB
      exact ⟨log, pkg, hf, by simp [launch_eq, entries], rfl, by simp [launch_eq]⟩
    | check i2 url2 p3 q fin3 dep dev n3 hA hB hout => cases hA
    | depWait i2 url2 p3 fin3 hA hB hout => cases hA
    | done i2 url2 hA hB hout hwg => cases hA
    | release i2 url2 hA hB hout => cases hA
  · intro s2 hs l r i url p fin n h1 h2
    have hm := step_task_move E verbose s s2 hs l r _ _ h1 h2 (by simp)
    cases hm with
    | fetchFail i2 url2 log hA hB hf hout => cases hA
    | fetchOk i2 url2 log pkg hA hB hf hout => cases hA
    | check i2 url2 p3 q fin3 dep dev n3 hA hB hout => cases hA; cases hB
    | depWait i2 url2 p3 fin3 hA hB hout =>
      cases hA
      obtain ⟨log, pkg, k1, k2, k3, k4, k5⟩ :=
        key ⟨i, url, .verifying p fin 0⟩ (by simp [h1]) p fin 0 rfl
      have hp0 : p = [] := List.length_eq_zero.1 k4.symm
      subst hp0
      exact ⟨log, pkg, k1, rfl, rfl, k5 rfl, by simpa using k3⟩
    | done i2 url2 hA hB hout hwg => cases hA
    | release i2 url2 hA hB hout => cases hA
  · intro s2 hs l r i url p fin n p2 fin2 n2 h1 h2 hne
    have hm := step_task_move E verbose s s2 hs l r _ _ h1 h2
      (by intro h; cases h; exact hne rfl)
    cases hm with
    | fetchFail i2 url2 log hA hB hf hout => cases hA
    | fetchOk i2 url2 log pkg hA hB hf hout => cases hA
    | check i2 url2 p3 q fin3 dep dev n3 hA hB hout =>
      cases hA
      cases hB
      obtain ⟨_, _, _, _, _, k4, _⟩ :=
        key ⟨i, url, .verifying (p3 ++ (dep, dev) :: q) fin n⟩ (by simp [h1]) _ _ _ rfl
      refine ⟨p3, q, dep, dev, rfl, rfl, rfl, ?_, hout⟩
      simp at k4
      omega
    | depWait i2 url2 p3 fin3 hA hB hout => cases hA; cases hB
    | done i2 url2 hA hB hout hwg => cases hA
    | release i2 url2 hA hB hout => cases hA
  · intro s2 hs l r i url h1 h2
    have hm := step_task_move E verbose s s2 hs l r _ _ h1 h2 (by simp)
    cases hm with
    | fetchFail i2 url2 log hA hB hf hout =>
      cases hA
      rw [hf]
    | fetchOk i2 url2 log pkg hA hB hf hout => cases hA; cases hB
    | check i2 url2 p3 q fin3 dep dev n3 hA hB hout => cases hA
    | depWait i2 url2 p3 fin3 hA hB hout => cases hA
    | done i2 url2 hA hB hout hwg => cases hA
    | release i2 url2 hA hB hout => cases hA

/-- C4 on the sample run: the manifest of line 0 has three entries; the step
that lets the task leave `depWg.Wait()` is taken with all three finished. -/
theorem one_check_per_entry_witness :
    ∃ log pkg, fetchManifest "https://example.com/package.json" false (sampleEnv.fetch 0) =
        (log, some pkg) ∧
      ([] : List (String × Bool)) = [] ∧ 0 = 0 ∧
      [("totally-fake-pkg-xyz", false), ("left-pad", false), ("left-pad", true)].Perm
        (entries pkg) ∧
      [("totally-fake-pkg-xyz", false), ("left-pad", false), ("left-pad", true)].length =
        pkg.Dependencies.length + pkg.DevDependencies.length :=
  (one_check_per_entry sampleEnv false 1 ["https://example.com/package.json"] _
    (sample_run_checked "https://example.com/package.json")).2.2.2.1 _
    (Step.depWait _ [] [] 0 "https://example.com/package.json" []
      [("totally-fake-pkg-xyz", false), ("left-pad", false), ("left-pad", true)]
      (by simp) rfl)
    [] [] 0 "https://example.com/package.json" []
    [("totally-fake-pkg-xyz", false), ("left-pad", false), ("left-pad", true)] 0 rfl rfl

theorem fetchManifest_of_failed (url : String) (verbose : Bool) (fr : FetchResult)
    (hf : fr.failed = true) :
    (fetchManifest url verbose fr).2 = none ∧
    countLevel .warning (fetchManifest url verbose fr).1 = 0 ∧
    countLevel .error (fetchManifest url verbose fr).1 = (if verbose then 1 else 0) ∧
    (∀ l ∈ (fetchManifest url verbose fr).1, l.level = .info →
      l = ⟨.info, "Fetching URL: " ++ url⟩) ∧
    (verbose = false → (fetchManifest url verbose fr).1 = []) := by
  cases fr with
  | getErr err => cases verbose <;> simp [fetchManifest, countLevel]
  | response status decoded =>
    cases decoded with
    | error err =>
      by_cases hs : status = 200 <;> cases verbose <;> simp [fetchManifest, countLevel, hs]
    | ok pkg =>
      have hs : status ≠ 200 := by simpa [FetchResult.failed] using hf
      cases verbose <;> simp [fetchManifest, countLevel, hs]

/-- C8 as stated fails in its last part. Capacity 1, verbose on, one input
line that answers 404: the task prints its two lines and runs `wg.Done()`;
then `main` leaves `wg.Wait()` and returns. The process is over (no step is
possible) and the task never ran its deferred `<-semaphore`: it still holds
the slot. -/
theorem failed_fetch_task_keeps_slot_at_exit :
    ∃ s, Reach notFoundEnv true (Pool.init 1 ["https://example.com/package.json"]) s ∧
      (notFoundEnv.fetch 0).failed = true ∧
      s.pc = .exited ∧
      s.tasks = [⟨0, "https://example.com/package.json", .signalled⟩] ∧
      holders s.tasks = 1 ∧ s.sem = 1 ∧
      s.out.map Line.level = [.info, .error] ∧
      ∀ s2, ¬ Step notFoundEnv true s s2 := by
  refine ⟨
    { cap := 1, todo := [], pc := .exited, wg := 1 - 1, sem := 1,
      tasks := [⟨0, "https://example.com/package.json", .signalled⟩],
      out := [] ++ (fetchManifest "https://example.com/package.json" true
        (notFoundEnv.fetch 0)).1 },
    ?_, rfl, rfl, rfl, by decide, rfl, by decide, ?_⟩
  · exact Reach.step _ _ (Reach.step _ _ (Reach.step _ _ (Reach.step _ _
      (started_run notFoundEnv true "https://example.com/package.json")
      (Step.toWait _ rfl rfl))
      (Step.fetchFail _ [] [] 0 "https://example.com/package.json" _ (by simp) rfl rfl))
      (Step.done _ [] [] 0 "https://example.com/package.json" (by simp) rfl))
      (Step.exit _ rfl rfl)
  · intro s2 hs
    cases hs <;> simp_all

/-- C8 amended. For a URL whose fetch ends in a transport error, a status
other than 200 or a decode error, `processURL` decodes no manifest and
launches no check; it prints no `[WARNING]` line and no `[INFO]` line but
`Fetching URL: ...`; with verbose on it prints exactly one `[ERROR]` line,
with verbose off nothing at all. In the pool, the task of such an input line
is in no reachable state verifying. Once it is started: the only step that
changes it takes it to the end of `processURL` and prints exactly these
lines; the run always can go on to the end of `main`, and whenever `main` has
ended the task has delivered `wg.Done()`; while the process lives, a task that
has delivered `wg.Done()` can always run its `<-semaphore` and give its slot
back (the three steps exist from the start state). The release itself is not
promised: `main` may end first. -/
theorem failed_fetch_yields_no_outcome (E : Env) (verbose : Bool) (k : Nat)
    (urls : List String) (s : Pool) (l r : List Task) (i : Nat) (url : String)
    (hr : Reach E verbose (Pool.init k urls) s)
    (ht : s.tasks = l ++ ⟨i, url, .start⟩ :: r)
    (hf : (E.fetch i).failed = true) :
    (fetchManifest url verbose (E.fetch i)).2 = none ∧
    processURL url verbose (E.fetch i) (E.lookup i) = (fetchManifest url verbose (E.fetch i)).1 ∧
    countLevel .warning (processURL url verbose (E.fetch i) (E.lookup i)) = 0 ∧
    countLevel .error (processURL url verbose (E.fetch i) (E.lookup i)) =
      (if verbose then 1 else 0) ∧
    (∀ ln ∈ processURL url verbose (E.fetch i) (E.lookup i), ln.level = .info →
      ln = ⟨.info, "Fetching URL: " ++ url⟩) ∧
    (verbose = false → processURL url verbose (E.fetch i) (E.lookup i) = []) ∧
    (∀ s4, Reach E verbose (Pool.init k urls) s4 → ∀ t ∈ s4.tasks, t.idx = i →
      ∀ p fin n, t.phase ≠ .verifying p fin n) ∧
    (∀ s2, Step E verbose s s2 → ∀ B, s2.tasks = l ++ B :: r → B ≠ ⟨i, url, .start⟩ →
      B = ⟨i, url, .returned⟩ ∧
      s2.out = s.out ++ processURL url verbose (E.fetch i) (E.lookup i)) ∧
    (∃ s4, Reach E verbose s s4 ∧ s4.pc = .exited) ∧
    (∀ s4, Reach E verbose (Pool.init k urls) s4 → s4.pc = .exited →
      ∀ t ∈ s4.tasks, t.idx = i → t.phase = .signalled ∨ t.phase = .released) ∧
    (∀ s4, Reach E verbose (Pool.init k urls) s4 → s4.pc ≠ .exited →
      ∀ l4 r4 u4, s4.tasks = l4 ++ ⟨i, u4, .signalled⟩ :: r4 →
        ∃ s5, Step E verbose s4 s5 ∧ s5.tasks = l4 ++ ⟨i, u4, .released⟩ :: r4 ∧
          s5.sem + 1 = s4.sem) ∧
    ∃ s1 s2 s3, Step E verbose s s1 ∧ Step E verbose s1 s2 ∧ Step E verbose s2 s3 ∧
      s1.tasks = l ++ ⟨i, url, .returned⟩ :: r ∧
      s1.out = s.out ++ processURL url verbose (E.fetch i) (E.lookup i) ∧
      s2.tasks = l ++ ⟨i, url, .signalled⟩ :: r ∧ s2.wg = s.wg - 1 ∧
      s3.tasks = l ++ ⟨i, url, .released⟩ :: r ∧ s3.sem + 1 = s.sem ∧
      s3.out = s1.out := by
  obtain ⟨f1, f2, f3, f4, f5⟩ := fetchManifest_of_failed url verbose (E.fetch i) hf
  have hfm : fetchManifest url verbose (E.fetch i) =
      ((fetchManifest url verbose (E.fetch i)).1, none) := by
    rw [← f1]
  have hp := processURL_of_none url verbose (E.fetch i) (E.lookup i) _ hfm
  rw [hp]
  refine ⟨f1, rfl, f2, f3, f4, f5, ?_, ?_, ?_, ?_, ?_, ?_⟩
  · intro s4 hr4 t hmem hidx p fin n hph
    obtain ⟨log, pkg, hm, _⟩ := (inv_reach E verbose k urls s4 hr4).verify_ok t hmem p fin n hph
    rw [hidx] at hm
    cases hE : E.fetch i with
    | getErr err => simp [hE, fetchManifest] at hm
    | response status decoded =>
      rw [hE] at hf hm
      cases decoded with
      | error err =>
        by_cases hs : status = 200 <;> simp [fetchManifest, hs] at hm
      | ok pkg2 =>
        have hs : status ≠ 200 := by simpa [FetchResult.failed] using hf
        simp [fetchManifest, hs] at hm
  · intro s2 hs B h2 hB
    have hm := step_task_move E verbose s s2 hs l r _ B ht h2 (fun h => hB h.symm)
    cases hm with
    | fetchFail i2 url2 log hA hB2 hfm2 hout =>
      cases hA
      rw [hfm] at hfm2
      cases hfm2
      exact ⟨hB2, hout⟩
    | fetchOk i2 url2 log pkg hA hB2 hfm2 hout =>
      cases hA
      rw [hfm] at hfm2
      cases hfm2
    | check i2 url2 p3 q fin3 dep dev n3 hA hB2 hout => cases hA
    | depWait i2 url2 p3 fin3 hA hB2 hout => cases hA
    | done i2 url2 hA hB2 hout hwg => cases hA
    | release i2 url2 hA hB2 hout => cases hA
  · have h := inv_reach E verbose k urls s hr
    have hpos := holders_pos_of_mem s.tasks ⟨i, url, .start⟩ (by simp [ht]) (by simp)
    have h1 := h.sem_eq
    have h2 := h.sem_le
    have h3 := h.cap_eq
    exact completes_of_ok E verbose k urls (Or.inl (by omega)) s hr
  · intro s4 hr4 hex t hmem _
    have h := inv_reach E verbose k urls s4 hr4
    have h1 := h.exited_wg hex
    have h2 := h.wg_eq
    exact inFlight_eq_zero s4.tasks (by omega) t hmem
  · intro s4 hr4 halive4 l4 r4 u4 ht4
    have h := inv_reach E verbose k urls s4 hr4
    have hpos := holders_pos_of_mem s4.tasks ⟨i, u4, .signalled⟩ (by simp [ht4]) (by simp)
    have h1 := h.sem_eq
    refine ⟨_, Step.release s4 l4 r4 i u4 halive4 ht4 (by omega), rfl, ?_⟩
    show s4.sem - 1 + 1 = s4.sem
    omega
  have h := inv_reach E verbose k urls s hr
  have hmem : (⟨i, url, .start⟩ : Task) ∈ s.tasks := by simp [ht]
  have hpos := holders_pos_of_mem s.tasks _ hmem (by simp)
  have hsem := h.sem_eq
  have halive : s.pc ≠ .exited := by
    intro hex
    have h1 := h.exited_wg hex
    have h2 := h.wg_eq
    have h3 : 0 < inFlight s.tasks := by simp [ht, inFlight, Phase.inProcessURL]
    omega
  refine ⟨_, _, _, Step.fetchFail s l r i url _ halive ht hfm,
    Step.done _ l r i url halive rfl, Step.release _ l r i url halive rfl ?_,
    rfl, rfl, rfl, rfl, rfl, ?_, rfl⟩
  · show 0 < s.sem
    omega
  · show s.sem - 1 + 1 = s.sem
    omega

/-- C8 amended, at a 404: capacity 1, verbose on, the one input line answers
404. -/
theorem failed_fetch_yields_no_outcome_witness :
    (notFoundEnv.fetch 0).failed = true ∧
    countLevel .error (processURL "https://example.com/package.json" true
      (notFoundEnv.fetch 0) (notFoundEnv.lookup 0)) = (if true then 1 else 0) ∧
    countLevel .warning (processURL "https://example.com/package.json" true
      (notFoundEnv.fetch 0) (notFoundEnv.lookup 0)) = 0 :=
  have h := failed_fetch_yields_no_outcome notFoundEnv true 1
    ["https://example.com/package.json"] _ [] [] 0 "https://example.com/package.json"
    (started_run notFoundEnv true "https://example.com/package.json") rfl rfl
  ⟨rfl, h.2.2.2.1, h.2.2.1⟩

/-! ## Isolation of URLs -/

theorem emitted_sum_of_done (E : Env) (verbose : Bool) (ts : List Task) :
    ∀ i, ts.map Task.idx = List.range' i ts.length →
      (∀ t ∈ ts, t.phase = .signalled ∨ t.phase = .released) →
      (ts.map (emitted E verbose)).sum =
        (↑(sequentialRun E verbose i (ts.map Task.url)) : Multiset Line) := by
  induction ts with
  | nil => intro i _ _; rfl
  | cons t ts ih =>
    intro i hidx hdone
    simp only [List.map_cons, List.length_cons, List.range'_succ, List.cons.injEq] at hidx
    have h1 := ih (i + 1) hidx.2 (fun x hx => hdone x (by simp [hx]))
    have h2 : emitted E verbose t =
        ↑(processURL t.url verbose (E.fetch i) (E.lookup i)) := by
      rcases hdone t (by simp) with hp | hp <;> simp [emitted, hp, hidx.1]
    simp only [List.map_cons, List.sum_cons, sequentialRun, h1, h2]
    rfl

theorem sequentialRun_append (E : Env) (verbose : Bool) (a b : List String) :
    ∀ i, sequentialRun E verbose i (a ++ b) =
      sequentialRun E verbose i a ++ sequentialRun E verbose (i + a.length) b := by
  induction a with
  | nil => intro i; simp [sequentialRun]
  | cons u us ih =>
    intro i
    simp [sequentialRun, ih, Nat.add_assoc, Nat.add_comm 1]

theorem sequentialRun_congr (E E2 : Env) (verbose : Bool) (us : List String) :
    ∀ i, (∀ j, i ≤ j → j < i + us.length → E2.fetch j = E.fetch j ∧ E2.lookup j = E.lookup j) →
      sequentialRun E2 verbose i us = sequentialRun E verbose i us := by
  induction us with
  | nil => intro i _; rfl
  | cons u us ih =>
    intro i h
    have h1 := h i (Nat.le_refl _) (by simp)
    have h2 := ih (i + 1) (fun j hj1 hj2 => h j (by omega) (by simp at hj2 ⊢; omega))
    simp [sequentialRun, h1.1, h1.2, h2]

theorem out_perm_of_exited (E : Env) (verbose : Bool) (k : Nat) (urls : List String)
    (s : Pool) (hr : Reach E verbose (Pool.init k urls) s) (hex : s.pc = .exited) :
    s.out.Perm (sequentialRun E verbose 0 urls) := by
  have h := inv_reach E verbose k urls s hr
  have h1 := h.urls_eq
  have h2 := h.todo_nil (Or.inr hex)
  have h3 := h.exited_wg hex
  have h4 := h.wg_eq
  have h5 : inFlight s.tasks = 0 := by omega
  rw [h2, hex] at h1
  simp only [MainPc.urls, List.append_nil] at h1
  have h6 := emitted_sum_of_done E verbose s.tasks 0
    (by rw [h.idx_eq, List.range_eq_range']) (inFlight_eq_zero s.tasks h5)
  rw [← h.out_eq, ← h1] at h6
  exact Multiset.coe_eq_coe.1 h6

/-- C9. Per-URL isolation. For every positive concurrency and every input:
the run can reach the end of `main`; whenever it has, the lines printed by
the whole run are, up to order, the lines each URL prints when `processURL`
handles it alone; and if the fetch of one input line X is replaced by a
failure, the lines printed for all other lines are the same in both runs
(the two outputs differ only in what X itself prints). -/
theorem per_url_isolation (E : Env) (verbose : Bool) (k : Nat) (hk : 0 < k)
    (urls : List String) :
    (∃ s, Reach E verbose (Pool.init k urls) s ∧ s.pc = .exited) ∧
    (∀ s, Reach E verbose (Pool.init k urls) s → s.pc = .exited →
      s.out.Perm (sequentialRun E verbose 0 urls)) ∧
    (∀ pre x post fr, urls = pre ++ x :: post → fr.failed = true →
      ∀ s s2, Reach E verbose (Pool.init k urls) s → s.pc = .exited →
        Reach (E.setFetch pre.length fr) verbose (Pool.init k urls) s2 → s2.pc = .exited →
        ∃ others,
          s.out.Perm
            (processURL x verbose (E.fetch pre.length) (E.lookup pre.length) ++ others) ∧
          s2.out.Perm ((fetchManifest x verbose fr).1 ++ others)) := by
  refine ⟨completes_of_ok E verbose k urls (Or.inl hk) _ Reach.refl,
    out_perm_of_exited E verbose k urls, ?_⟩
  intro pre x post fr hurls hfail s s2 hr hex hr2 hex2
  have h1 := out_perm_of_exited E verbose k urls s hr hex
  have h2 := out_perm_of_exited (E.setFetch pre.length fr) verbose k urls s2 hr2 hex2
  refine ⟨sequentialRun E verbose 0 pre ++ sequentialRun E verbose (pre.length + 1) post, ?_, ?_⟩
  · refine h1.trans ?_
    rw [hurls, sequentialRun_append]
    simp only [sequentialRun, Nat.zero_add]
    rw [← List.append_assoc, ← List.append_assoc]
    exact List.Perm.append_right _ List.perm_append_comm
  · refine h2.trans ?_
    rw [hurls, sequentialRun_append]
    simp only [sequentialRun, Nat.zero_add]
    rw [sequentialRun_congr E (E.setFetch pre.length fr) verbose pre 0
        (fun j _ hj => by
          have : j ≠ pre.length := by omega
          simp [Env.setFetch, this]),
      sequentialRun_congr E (E.setFetch pre.length fr) verbose post (pre.length + 1)
        (fun j hj _ => by
          have : j ≠ pre.length := by omega
          simp [Env.setFetch, this])]
    have hx : processURL x verbose ((E.setFetch pre.length fr).fetch pre.length)
        ((E.setFetch pre.length fr).lookup pre.length) = (fetchManifest x verbose fr).1 := by
      have hf : (E.setFetch pre.length fr).fetch pre.length = fr := by simp [Env.setFetch]
      rw [hf]
      have hn := (fetchManifest_of_failed x verbose fr hfail).1
      exact processURL_of_none x verbose fr _ _ (by rw [← hn])
    rw [hx, ← List.append_assoc, ← List.append_assoc]
    exact List.Perm.append_right _ List.perm_append_comm

/-- C9 at capacity 2, verbose on, two URLs that both serve a manifest. A run
ends and prints the four lines of the two URLs; when the fetch of the first
URL is replaced by a transport error, a run ends as well, the first URL
prints its error instead, and the lines of the second URL, its warning for
`internal-lib` among them, are the same in both runs. -/
theorem per_url_isolation_witness :
    ∃ s s2 others,
      Reach twoEnv true
        (Pool.init 2 ["https://a.example/package.json", "https://b.example/package.json"]) s ∧
      s.pc = .exited ∧
      Reach (twoEnv.setFetch 0 (.getErr "timeout")) true
        (Pool.init 2 ["https://a.example/package.json", "https://b.example/package.json"]) s2 ∧
      s2.pc = .exited ∧
      s.out.Perm
        [⟨.info, "Fetching URL: https://a.example/package.json"⟩,
         ⟨.info, "Dependency 'left-pad' exists on npm (https://a.example/package.json)"⟩,
         ⟨.info, "Fetching URL: https://b.example/package.json"⟩,
         ⟨.warning, "Potential Dependency Confusion: 'internal-lib' not found on npm (devDependency, https://b.example/package.json)"⟩] ∧
      s2.out.Perm
        [⟨.info, "Fetching URL: https://a.example/package.json"⟩,
         ⟨.error, "Failed to fetch 'https://a.example/package.json': timeout"⟩,
         ⟨.info, "Fetching URL: https://b.example/package.json"⟩,
         ⟨.warning, "Potential Dependency Confusion: 'internal-lib' not found on npm (devDependency, https://b.example/package.json)"⟩] ∧
      s.out.Perm
        ([⟨.info, "Fetching URL: https://a.example/package.json"⟩,
          ⟨.info, "Dependency 'left-pad' exists on npm (https://a.example/package.json)"⟩] ++
          others) ∧
      s2.out.Perm
        ([⟨.info, "Fetching URL: https://a.example/package.json"⟩,
          ⟨.error, "Failed to fetch 'https://a.example/package.json': timeout"⟩] ++ others) ∧
      others.Perm
        [⟨.info, "Fetching URL: https://b.example/package.json"⟩,
         ⟨.warning, "Potential Dependency Confusion: 'internal-lib' not found on npm (devDependency, https://b.example/package.json)"⟩] := by
  obtain ⟨⟨s, hr, hex⟩, hperm, hiso⟩ := per_url_isolation twoEnv true 2 (by decide)
    ["https://a.example/package.json", "https://b.example/package.json"]
  obtain ⟨⟨s2, hr2, hex2⟩, hperm2, _⟩ :=
    per_url_isolation (twoEnv.setFetch 0 (.getErr "timeout")) true 2 (by decide)
      ["https://a.example/package.json", "https://b.example/package.json"]
  obtain ⟨others, h1, h2⟩ := hiso [] "https://a.example/package.json"
    ["https://b.example/package.json"] (.getErr "timeout") rfl rfl s s2 hr hex hr2 hex2
  have e1 : sequentialRun twoEnv true 0
      ["https://a.example/package.json", "https://b.example/package.json"] =
      [⟨.info, "Fetching URL: https://a.example/package.json"⟩,
       ⟨.info, "Dependency 'left-pad' exists on npm (https://a.example/package.json)"⟩,
       ⟨.info, "Fetching URL: https://b.example/package.json"⟩,
       ⟨.warning, "Potential Dependency Confusion: 'internal-lib' not found on npm (devDependency, https://b.example/package.json)"⟩] := by
    decide
  have e2 : sequentialRun (twoEnv.setFetch 0 (.getErr "timeout")) true 0
      ["https://a.example/package.json", "https://b.example/package.json"] =
      [⟨.info, "Fetching URL: https://a.example/package.json"⟩,
       ⟨.error, "Failed to fetch 'https://a.example/package.json': timeout"⟩,
       ⟨.info, "Fetching URL: https://b.example/package.json"⟩,
       ⟨.warning, "Potential Dependency Confusion: 'internal-lib' not found on npm (devDependency, https://b.example/package.json)"⟩] := by
    decide
  have e3 : processURL "https://a.example/package.json" true
      (twoEnv.fetch ([] : List String).length) (twoEnv.lookup ([] : List String).length) =
      [⟨.info, "Fetching URL: https://a.example/package.json"⟩,
       ⟨.info, "Dependency 'left-pad' exists on npm (https://a.example/package.json)"⟩] := by
    decide
  have e4 : (fetchManifest "https://a.example/package.json" true (.getErr "timeout")).1 =
      [⟨.info, "Fetching URL: https://a.example/package.json"⟩,
       ⟨.error, "Failed to fetch 'https://a.example/package.json': timeout"⟩] := by
    decide
  rw [e1] at hperm
  rw [e2] at hperm2
  rw [e3] at h1
  rw [e4] at h2
  have h3 := hperm s hr hex
  refine ⟨s, s2, others, hr, hex, hr2, hex2, h3, hperm2 s2 hr2 hex2, h1, h2, ?_⟩
  have h4 := h1.symm.trans h3
  exact (List.perm_append_left_iff _).1 h4

end HexDox
